import Mathlib

/-!
Verification development for the stitchify intarsia chart generator.

The Rust sources are shallowly embedded: machine integers (`u16`, `u32`)
become `Nat` (checked-arithmetic semantics: inputs on which the Rust code
would overflow-panic never return `Ok` and are outside every claim's
hypothesis), `f32` sampling arithmetic becomes exact rational arithmetic (`Rq`) with
Rust's round-half-away-from-zero rounding, fallible code returns
`Except`/`Option`, and a slice-index / `unwrap` panic is modelled as the
`none` of an outer `Option` layer.  `HashMap` iteration order (unspecified
in Rust) is modelled as insertion order; the link hash map is modelled by
its lookup function, which is all the algorithm observes.
-/

deriving instance DecidableEq for Except

namespace Stitchify


/-- RGB color, `[u8; 3]` in the source (`pub type Color = [u8; 3]`). -/
abbrev Color := ℕ × ℕ × ℕ

/-- The `Image` trait of `stitch_image.rs`: width, height and
`get_pixel(x, y) → Option<Color>`. -/
structure ImageData where
  width : ℕ
  height : ℕ
  pixel : ℕ → ℕ → Option Color

/-- `Stitch` of `fabric.rs`: a cell holding a color and a thread id. -/
structure Stitch where
  color : Color
  thread : ℕ
deriving DecidableEq, Repr

/-- `Thread` of `fabric.rs`. -/
structure Thread where
  x : ℕ
  y : ℕ
  id : ℕ
  color : Color
  stitch_count : ℕ
deriving DecidableEq, Repr

instance : Inhabited Thread := ⟨⟨0, 0, 0, (0, 0, 0), 0⟩⟩

/-- `Link` of `dimensions.rs`: a pair of user-coordinate positions. -/
structure Link where
  source : ℕ × ℕ
  dest : ℕ × ℕ
deriving DecidableEq, Repr

/-- Exact unnormalized rational arithmetic standing in for `f32` (all the
sampling values of this program are small exact decimals).  Denominators
are positive throughout the program's computations; operations are plain
integer arithmetic so that the kernel can evaluate them. -/
structure Rq where
  num : ℤ
  den : ℤ
deriving DecidableEq, Repr

instance : OfNat Rq n := ⟨⟨n, 1⟩⟩

instance : NatCast Rq := ⟨fun n => ⟨n, 1⟩⟩

instance : Add Rq := ⟨fun a b => ⟨a.num * b.den + b.num * a.den, a.den * b.den⟩⟩

instance : Sub Rq := ⟨fun a b => ⟨a.num * b.den - b.num * a.den, a.den * b.den⟩⟩

instance : Mul Rq := ⟨fun a b => ⟨a.num * b.num, a.den * b.den⟩⟩

instance : Div Rq := ⟨fun a b => ⟨a.num * b.den, a.den * b.num⟩⟩

instance : Neg Rq := ⟨fun a => ⟨-a.num, a.den⟩⟩

instance : Pow Rq ℕ := ⟨fun a n => ⟨a.num ^ n, a.den ^ n⟩⟩

/-- `q ≤ 0` (as long as the denominator is nonzero this agrees with the
rational value's sign in either denominator sign convention). -/
def Rq.le0 (q : Rq) : Prop := q.num * q.den ≤ 0

instance (q : Rq) : Decidable q.le0 := by unfold Rq.le0; infer_instance

/-- `⌊q⌋` for a positive denominator (`Int.fdiv` rounds toward `-∞`). -/
def Rq.floor (q : Rq) : ℤ := q.num.fdiv q.den

/-- Rust `f32::round` (half away from zero) followed by `max(0.0)` and a
cast to an unsigned integer.  All the uses in `fabric.rs` and
`sampler.rs` either clamp with `.max(0.0)` or have a non-negative
argument, so one clamped rounding covers them. -/
def natRound (q : Rq) : ℕ := if q.le0 then 0 else ((q + ⟨1, 2⟩).floor).toNat

/-- `StitchText` of `dimensions.rs`. -/
inductive StitchText
  | none
  | thread
  | runs
  | ruler
deriving DecidableEq, Repr

/-- `Dimensions` of `dimensions.rs` (gauges are `f32` there, `Rq` here). -/
structure Dimensions where
  stitches : ℕ
  gauge_stitches : Rq
  gauge_rows : Rq
  cm_per_stitch : Option Rq
  duplicate_rows : ℕ
  allow_link_gaps : Bool
  links : List Link
  stitch_text : StitchText
deriving DecidableEq

/-- `Error` of `fabric.rs`. -/
inductive Err
  | LinkNotFound (l : Link)
  | LinkTooFar (l : Link)
  | LinkToDifferentColor (l : Link)
  | PosOutsideOfFabric (x y : ℕ)
deriving DecidableEq, Repr

/-- `Fabric` of `fabric.rs`. -/
structure Fabric where
  stitches : List (Option Stitch)
  n_stitches : ℕ
  n_rows : ℕ
  threads : List Thread
deriving DecidableEq, Repr

/-- `MAX_ROW_GAP` of `fabric.rs`. -/
def MAX_ROW_GAP : ℕ := 2

/-- `MAX_STITCH_GAP` of `fabric.rs`. -/
def MAX_STITCH_GAP : ℕ := 1

/-- `u16::abs_diff`. -/
def absDiff (a b : ℕ) : ℕ := if a ≤ b then b - a else a - b

/-- Wrapping `u16` subtraction (`a`, `b` both below `2^16`): the
`thread.y - y` of `find_neighboring_thread` in `fabric.rs`. -/
def wsub (a b : ℕ) : ℕ := (a + 65536 - b) % 65536

/-! ### Plurality counting (`most_popular_color` of `fabric.rs`)

The `HashMap<Option<Color>, u32>` is modelled as an association list in
insertion order; `max_by_key` keeps the last maximum in iteration order. -/

/-- `colors.entry(color).and_modify(|e| *e += 1).or_insert(1)`. -/
def bumpColor : List (Option Color × ℕ) → Option Color → List (Option Color × ℕ)
  | [], c => [(c, 1)]
  | (k, n) :: rest, c =>
      if k = c then (k, n + 1) :: rest else (k, n) :: bumpColor rest c

/-- `iter.max_by_key(count)`: the last entry of maximal count, `none` on an
empty iterator. -/
def maxEntry : List (Option Color × ℕ) → Option (Option Color × ℕ)
  | [] => none
  | (k, n) :: rest =>
      match maxEntry rest with
      | none => some (k, n)
      | some (k2, n2) => if n ≤ n2 then some (k2, n2) else some (k, n)

/-- The pixel rectangle `[sx, ex) × [sy, ey)` in row-major traversal
order, exactly the nested loops of `most_popular_color`. -/
def regionPixels (sx ex sy ey : ℕ) : List (ℕ × ℕ) :=
  (List.range' sy (ey - sy)).flatMap fun y =>
    (List.range' sx (ex - sx)).map fun x => (x, y)

/-- The counts map after the counting loops of `most_popular_color`. -/
def countRegion (img : ImageData) (sx ex sy ey : ℕ) : List (Option Color × ℕ) :=
  (regionPixels sx ex sy ey).foldl (fun cs p => bumpColor cs (img.pixel p.1 p.2)) []

/-- `most_popular_color` of `fabric.rs`.  The result is doubly optional:
the outer `none` is the `.unwrap()` panic on an empty counts map, the
inner layer is the returned `Option<Color>`. -/
def most_popular_color (img : ImageData) (sx ex sy ey : ℕ) :
    Option (Option Color) :=
  (maxEntry (countRegion img sx ex sy ey)).map (·.1)

/-! ### Step 1 of `Fabric::new`: resampling -/

/-- One resampled row of stitches: the inner `for x in 0..stitches` loop of
`Fabric::new`.  `none` propagates the `most_popular_color` panic. -/
def rowColors (img : ImageData) (sw : Rq) (ns sy ey : ℕ) :
    Option (List (Option Stitch)) :=
  (List.range ns).mapM fun x =>
    let sx := natRound (sw * (x : Rq))
    let ex := min (natRound (sw * ((x : Rq) + 1))) img.width
    (most_popular_color img sx ex sy ey).map fun c =>
      c.map fun col => { color := col, thread := 0 }

/-- Overwrite the row at internal row `y` with `row` (length `ns`). -/
def setRow (grid : List (Option Stitch)) (ns y : ℕ) (row : List (Option Stitch)) :
    List (Option Stitch) :=
  (List.range ns).foldl (fun g x => g.set (y * ns + x) (row.getD x none)) grid

/-- The row tops visited by
`for y in (0..n_rows).rev().step_by(duplicate_rows)`. -/
def rowTops (nRows dup : ℕ) : List ℕ :=
  (List.range nRows).reverse.filter fun y => (nRows - 1 - y) % dup = 0

/-- The resampling phase of `Fabric::new` (lines 109–160 of `fabric.rs`):
returns the filled stitch grid and `n_rows`, or `none` on a
`most_popular_color` panic. -/
def resample (img : ImageData) (d : Dimensions) :
    Option (List (Option Stitch) × ℕ) :=
  let sw : Rq := (img.width : Rq) / (d.stitches : Rq)
  let sh : Rq := sw * d.gauge_stitches / d.gauge_rows
  let nRows : ℕ := natRound ((img.height : Rq) / sh)
  let grid0 : List (Option Stitch) := List.replicate (nRows * d.stitches) none
  ((rowTops nRows d.duplicate_rows).foldlM (fun g (y : ℕ) =>
      let sy := natRound (sh * ((y : Rq) - ((d.duplicate_rows - 1 : ℕ) : Rq)))
      let ey := min (natRound (sh * ((y : Rq) + 1))) img.height
      (rowColors img sw d.stitches sy ey).map fun row =>
        ((List.range (min (d.duplicate_rows - 1) y)).map fun i => y - i - 1).foldl
          (fun g2 yy => setRow g2 d.stitches yy row)
          (setRow g d.stitches y row))
    grid0).map fun g => (g, nRows)

/-! ### Step 2 of `Fabric::new`: link normalization (`links_to_hash`) -/

/-- The `HashMap<(u16, u16), (u16, u16)>` link map, modelled by its lookup
function (the only operation the sweep performs on it). -/
def LinkMap := ℕ × ℕ → Option (ℕ × ℕ)

/-- `HashMap::insert` (overwrites an existing binding). -/
def lmInsert (m : LinkMap) (k v : ℕ × ℕ) : LinkMap :=
  fun k2 => if k2 = k then some v else m k2

/-- The empty link map. -/
def lmEmpty : LinkMap := fun _ => none

/-- `look_up_link_position` of `fabric.rs`: read the stitch color at the
user coordinate `(x, y)` (1-based, origin bottom-right). -/
def look_up_link_position (grid : List (Option Stitch)) (ns nr : ℕ)
    (p : ℕ × ℕ) : Option Color :=
  (grid.getD (ns - p.1 + (nr - p.2) * ns) none).map (·.color)

/-- `validate_link_pos` of `fabric.rs`. -/
def validate_link_pos (grid : List (Option Stitch)) (ns nr : ℕ)
    (p : ℕ × ℕ) : Except Err Unit :=
  if p.1 = 0 ∨ ns < p.1 ∨ p.2 = 0 ∨ nr < p.2
      ∨ look_up_link_position grid ns nr p = none then
    .error (.PosOutsideOfFabric p.1 p.2)
  else
    .ok ()

/-- `compare_position_thread_order` of `fabric.rs`: knit order between two
user-coordinate positions (`a.1 & 1` in the source is the user row). -/
def compare_position_thread_order (a b : ℕ × ℕ) : Ordering :=
  (compare a.2 b.2).then
    (if a.2 % 2 = 0 then compare b.1 a.1 else compare a.1 b.1)

/-- The per-link body of the `links_to_hash` loop. -/
def processLink (grid : List (Option Stitch)) (ns nr : ℕ) (allow : Bool)
    (m : LinkMap) (l : Link) : Except Err LinkMap := do
  let _ ← validate_link_pos grid ns nr l.source
  let _ ← validate_link_pos grid ns nr l.dest
  if !allow ∧ (MAX_STITCH_GAP < absDiff l.source.1 l.dest.1
      ∨ MAX_ROW_GAP < absDiff l.source.2 l.dest.2) then
    .error (.LinkTooFar l)
  else if look_up_link_position grid ns nr l.source
      ≠ look_up_link_position grid ns nr l.dest then
    .error (.LinkToDifferentColor l)
  else if compare_position_thread_order l.source l.dest = .gt then
    .ok (lmInsert m l.source l.dest)
  else
    .ok (lmInsert m l.dest l.source)

/-- `links_to_hash` of `fabric.rs`. -/
def links_to_hash (grid : List (Option Stitch)) (ns nr : ℕ) (allow : Bool)
    (links : List Link) : Except Err LinkMap :=
  links.foldlM (processLink grid ns nr allow) lmEmpty

/-! ### Step 3 of `Fabric::new`: the thread sweep (`calculate_threads`) -/

/-- Index of the first thread located at internal coordinates `(tx, ty)`:
the linear scan in `find_thread_in_links`. -/
def findThreadAt : List Thread → ℕ → ℕ → Option ℕ
  | [], _, _ => none
  | t :: rest, tx, ty =>
      if t.x = tx ∧ t.y = ty then some 0
      else (findThreadAt rest tx ty).map (· + 1)

/-- `find_thread_in_links` of `fabric.rs`. -/
def find_thread_in_links (ts : List Thread) (ns nr : ℕ) (lm : LinkMap)
    (x y : ℕ) : Except Err (Option ℕ) :=
  let source := (ns - x, nr - y)
  match lm source with
  | some dest =>
      match findThreadAt ts (ns - dest.1) (nr - dest.2) with
      | some i => .ok (some i)
      | none => .error (.LinkNotFound ⟨source, dest⟩)
  | none => .ok none

/-- The `threads.iter().enumerate().rev()` loop of
`find_neighboring_thread`, consuming the reversed thread list; at the head
`t :: rest` of the reversed list, `rest.length` is the index of `t` in the
original list.  The early exit uses the wrapping `u16` difference
`thread.y - y` of the source. -/
def fnbAux (c : Color) (x y : ℕ) : List Thread → Option ℕ
  | [] => none
  | t :: rest =>
      if MAX_ROW_GAP < wsub t.y y then none
      else if t.color ≠ c then fnbAux c x y rest
      else if absDiff t.x x ≤ MAX_STITCH_GAP then some rest.length
      else fnbAux c x y rest

/-- `find_neighboring_thread` of `fabric.rs`. -/
def find_neighboring_thread (ts : List Thread) (c : Color) (x y : ℕ) :
    Option ℕ :=
  fnbAux c x y ts.reverse

/-- `self.threads.remove(i)` followed by relocating the removed thread to
`(x, y)` and pushing it at the tail (`find_thread`, match case). -/
def moveToEnd (ts : List Thread) (i x y : ℕ) : List Thread :=
  match ts.get? i with
  | some t => ts.eraseIdx i ++ [{ t with x := x, y := y }]
  | none => ts

/-- The sweep state: the stitch grid and the thread recency list. -/
structure SweepState where
  grid : List (Option Stitch)
  threads : List Thread
deriving DecidableEq

/-- `find_thread` of `fabric.rs`, returning the updated thread list: the
links lookup, `or_else` the neighbor scan; on a match the thread is
removed, relocated to `(x, y)` and pushed at the tail, otherwise a fresh
thread is pushed.  The `&mut Thread` the source returns is the last
element of the resulting list. -/
def find_thread (ts : List Thread) (ns nr : ℕ) (lm : LinkMap) (c : Color)
    (x y : ℕ) : Except Err (List Thread) := do
  let li ← find_thread_in_links ts ns nr lm x y
  match li.orElse fun _ => find_neighboring_thread ts c x y with
  | some i => pure (moveToEnd ts i x y)
  | none =>
      pure (ts ++ [{ x := x, y := y, id := ts.length, color := c,
                     stitch_count := 0 }])

/-- One iteration of the `calculate_threads` loops at internal position
`(x, y)`: look the cell up, find or create its thread (`find_thread`),
bump `stitch_count` and write the thread id into the stitch. -/
def assignStitch (ns nr : ℕ) (lm : LinkMap) (st : SweepState) (p : ℕ × ℕ) :
    Except Err SweepState :=
  match st.grid.getD (p.1 + p.2 * ns) none with
  | none => pure st
  | some stitch => do
      let ts ← find_thread st.threads ns nr lm stitch.color p.1 p.2
      match ts.getLast? with
      | none => pure st
      | some t =>
          pure (SweepState.mk
            (st.grid.set (p.1 + p.2 * ns) (some { stitch with thread := t.id }))
            (ts.dropLast ++ [{ t with stitch_count := t.stitch_count + 1 }]))

/-- The positions visited by the `calculate_threads` loops, in visit
order: `iy` from `n_rows − 1` down to `0`; `ix` ascending, but reversed on
rows where `(n_rows − 1 − iy) & 1 == 0`. -/
def knitOrder (ns nr : ℕ) : List (ℕ × ℕ) :=
  (List.range nr).reverse.flatMap fun y =>
    (List.range ns).map fun x =>
      if (nr - 1 - y) % 2 = 0 then (ns - 1 - x, y) else (x, y)

/-- The sweep: fold `assignStitch` over the knit order. -/
def sweepAux (ns nr : ℕ) (lm : LinkMap) :
    SweepState → List (ℕ × ℕ) → Except Err SweepState
  | st, [] => .ok st
  | st, p :: rest => do sweepAux ns nr lm (← assignStitch ns nr lm st p) rest

/-- Insertion into a list sorted by `id`. -/
def insertById (t : Thread) : List Thread → List Thread
  | [] => [t]
  | u :: rest =>
      if t.id ≤ u.id then t :: u :: rest else u :: insertById t rest

/-- `threads.sort_unstable_by_key(|t| t.id)`, realized as an insertion
sort; the sweep gives every thread a distinct id, so every comparison
sort agrees. -/
def sortById : List Thread → List Thread
  | [] => []
  | t :: rest => insertById t (sortById rest)

/-- `calculate_threads` of `fabric.rs`: sweep, then sort by id. -/
def calculate_threads (ns nr : ℕ) (lm : LinkMap)
    (grid : List (Option Stitch)) :
    Except Err (List (Option Stitch) × List Thread) := do
  let st ← sweepAux ns nr lm ⟨grid, []⟩ (knitOrder ns nr)
  pure (st.grid, sortById st.threads)

/-- `Fabric::new`: resample, normalize links, run the sweep.  The outer
`Option` is `none` exactly when `most_popular_color` panics. -/
def Fabric.new (img : ImageData) (d : Dimensions) :
    Option (Except Err Fabric) :=
  (resample img d).map fun (grid, nRows) => do
    let lm ← links_to_hash grid d.stitches nRows d.allow_link_gaps d.links
    let (g2, ts) ← calculate_threads d.stitches nRows lm grid
    pure { stitches := g2, n_stitches := d.stitches, n_rows := nRows,
           threads := ts }

/-! ### `sampler.rs` -/

/-- `Sampler` of `sampler.rs` (the cached counts map is per-call state and
is modelled locally in each operation). -/
structure Sampler where
  image : ImageData
  sample_width : Rq
  sample_height : Rq

/-- `SampleRange` of `sampler.rs`. -/
structure SampleRange where
  start_x : ℕ
  end_x : ℕ
  start_y : ℕ
  end_y : ℕ

/-- `Sampler::sample_range`. -/
def Sampler.sample_range (s : Sampler) (x y row_height : ℕ) : SampleRange :=
  { start_x := natRound ((x : Rq) * s.sample_width),
    end_x := min (natRound (((x + 1 : ℕ) : Rq) * s.sample_width)) s.image.width,
    start_y := natRound ((y : Rq) * s.sample_height),
    end_y := min (natRound (((y + row_height : ℕ) : Rq) * s.sample_height))
      s.image.height }

/-- `Sampler::end_counting`:
`counts.keys().max_by_key(..).cloned().unwrap_or(None)`. -/
def endCounting (counts : List (Option Color × ℕ)) : Option Color :=
  ((maxEntry counts).map Prod.fst).join

/-- `Sampler::sample`. -/
def Sampler.sample (s : Sampler) (x y row_height : ℕ) : Option Color :=
  let sr := s.sample_range x y row_height
  endCounting (countRegion s.image sr.start_x sr.end_x sr.start_y sr.end_y)

/-- `Sampler::sample_lower_left_triangle`.  The result is doubly optional:
once the row loop runs (`end_y > start_y`), every iteration computes the
`u32` width `end_x - start_x`, which underflow-panics when rounding left
`end_x < start_x` (`end_x` is clamped to the image width, `start_x` is
not); the outer `none` is that panic.  With `end_x ≥ start_x` every
subtraction in the body is exact, so truncated `Nat` subtraction agrees
with `u32` there. -/
def Sampler.sample_lower_left_triangle (s : Sampler) (x y : ℕ) :
    Option (Option Color) :=
  let sr := s.sample_range x y 1
  if sr.end_y ≤ sr.start_y then some none
  else if sr.end_x < sr.start_x then none
  else
    let yr := sr.end_y - sr.start_y
    some (endCounting (((List.range' sr.start_y yr).flatMap fun py =>
        let rowLength :=
          ((py + 1 - sr.start_y) * (sr.end_x - sr.start_x) + yr / 2) / yr
        (List.range' sr.start_x rowLength).map fun px => (px, py)).foldl
      (fun cs p => bumpColor cs (s.image.pixel p.1 p.2)) []))

/-- `Sampler::sample_upper_right_triangle`, with the same doubly-optional
result as the lower-left triangle: the outer `none` is the `u32`
underflow panic of `end_x - start_x` on a nonempty row range. -/
def Sampler.sample_upper_right_triangle (s : Sampler) (x y : ℕ) :
    Option (Option Color) :=
  let sr := s.sample_range x y 1
  if sr.end_y ≤ sr.start_y then some none
  else if sr.end_x < sr.start_x then none
  else
    let yr := sr.end_y - sr.start_y
    some (endCounting (((List.range' sr.start_y yr).flatMap fun py =>
        let rowLength :=
          ((yr + sr.start_y - py) * (sr.end_x - sr.start_x) + yr / 2) / yr
        (List.range' (sr.end_x - rowLength)
          (sr.end_x - (sr.end_x - rowLength))).map fun px => (px, py)).foldl
      (fun cs p => bumpColor cs (s.image.pixel p.1 p.2)) []))

/-! ### `mitre.rs` -/

/-- `MitreImage` of `mitre.rs`. -/
structure MitreImage where
  size : ℕ
  pixels : List (Option Color)

/-- `MitreImage::get_pixel` (`pixels[y * size * 2 + x]`). -/
def MitreImage.get_pixel (m : MitreImage) (x y : ℕ) : Option Color :=
  m.pixels.getD (y * m.size * 2 + x) none

/-- `MitreImage::new`: one row per output `y`, matching the pushes of the
source loop in order; the outer `none` propagates a triangle-sampler
panic (the two fallible calls are sequenced in source order). -/
def MitreImage.new (img : ImageData) (n_stitches : ℕ) : Option MitreImage :=
  let image_size := min img.width img.height
  let sample_size : Rq := (image_size : Rq) / (n_stitches : Rq)
  let s : Sampler := ⟨img, sample_size, sample_size⟩
  ((List.range n_stitches).mapM fun y =>
      let row_width := y + 1
      (s.sample_lower_left_triangle (row_width - 1) y).bind fun ll =>
        (s.sample_upper_right_triangle (row_width - 1) y).map fun ur =>
          ((List.range (row_width - 1)).map fun x => s.sample x y 1)
            ++ [ll]
            ++ List.replicate ((n_stitches - row_width) * 2) none
            ++ [ur]
            ++ ((List.range (row_width - 1)).map fun i =>
                  s.sample y (row_width - 1 - (i + 1)) 1)).map
    fun rows => ⟨n_stitches, rows.flatten⟩

/-- The `Image` view of a `MitreImage` (its `Image` impl). -/
def MitreImage.toImage (m : MitreImage) : ImageData :=
  { width := m.size * 2, height := m.size, pixel := m.get_pixel }

/-- The auto-generated center-seam links of `make_mitre_fabric`, in push
order. -/
def genMitreLinks (mi : MitreImage) : List Link :=
  if 1 < mi.size then
    let center := mi.size * 2 / 2
    (List.range (mi.size - 1)).flatMap fun y =>
      let image_y := mi.size - 2 - y
      let left_x := center - y - 2
      let right_x := center + y + 1
      let left := mi.get_pixel left_x image_y
      let right := mi.get_pixel right_x image_y
      if left = none ∨ right = none ∨ left ≠ right then []
      else
        let bottom_row := y * 2 + 3
        [⟨(right_x + 1, bottom_row), (left_x + 1, bottom_row)⟩,
         ⟨(left_x + 1, bottom_row + 1), (right_x + 1, bottom_row + 1)⟩]
  else []

/-- `make_mitre_fabric` of `mitre.rs`; the outer `none` covers both a
triangle-sampler panic inside `MitreImage::new` and the
`most_popular_color` panic inside `Fabric::new`. -/
def make_mitre_fabric (img : ImageData) (d : Dimensions) :
    Option (Except Err (Fabric × Dimensions)) :=
  (MitreImage.new img d.stitches).bind fun mi =>
    let d2 : Dimensions :=
      { d with gauge_rows := d.gauge_stitches * 2,
               duplicate_rows := 2,
               stitches := mi.size * 2,
               allow_link_gaps := true,
               links := d.links ++ genMitreLinks mi }
    (Fabric.new mi.toImage d2).map (Except.map fun f => (f, d2))

/-! ### `gauge.rs`

Strings become `List Char`; an `f32` value becomes `FV`: either an exact
rational (`Rq`) or one of the special values `inf`, `neginf`, `nan`
(`f32` rounding of decimal literals is abstracted to exact rationals, and
the `f32` overflow-to-infinity of enormous literals is not modelled — no
claim exercises it). -/

namespace Gauge

/-- A parsed `f32` value. -/
inductive FV
  | num (q : Rq)
  | inf
  | neginf
  | nan
deriving DecidableEq, Repr

/-- `gauge::Error` (the `ParseFloatError` payload is dropped). -/
inductive GError
  | FloatParseError
  | TooSmall (v : FV)
  | Abnormal (v : FV)
  | BothPartsLength
  | BothPartsItems
deriving DecidableEq, Repr

/-- `PartType` of `gauge.rs`. -/
inductive PartType
  | Length
  | Items
deriving DecidableEq, Repr

/-- `Part` of `gauge.rs`. -/
structure Part where
  part_type : PartType
  value : Rq
deriving DecidableEq, Repr

/-- `CM_PER_INCH` of `gauge.rs`. -/
def CM_PER_INCH : Rq := ⟨254, 100⟩

/-- Digit run to a natural number (most significant first). -/
def digitsToNat (s : List Char) : ℕ :=
  s.foldl (fun a c => 10 * a + (c.toNat - 48)) 0

/-- The exponent suffix of a decimal float literal: empty, or
`(e|E)[+|-]digits`. -/
def parseExp : List Char → Option Rq
  | [] => some 1
  | c :: rest =>
      if c = 'e' ∨ c = 'E' then
        match rest with
        | '+' :: ds =>
            if ds ≠ [] ∧ ds.all (·.isDigit) then
              some ((10 : Rq) ^ digitsToNat ds)
            else none
        | '-' :: ds =>
            if ds ≠ [] ∧ ds.all (·.isDigit) then
              some ((⟨1, 10⟩ : Rq) ^ digitsToNat ds)
            else none
        | ds =>
            if ds ≠ [] ∧ ds.all (·.isDigit) then
              some ((10 : Rq) ^ digitsToNat ds)
            else none
      else none

/-- An unsigned decimal float literal: `digits[.digits][exp]`, at least
one mantissa digit. -/
def parseDec (s : List Char) : Option Rq :=
  let ip := s.takeWhile (·.isDigit)
  let rest := s.dropWhile (·.isDigit)
  match rest with
  | '.' :: rest2 =>
      let fp := rest2.takeWhile (·.isDigit)
      let rest3 := rest2.dropWhile (·.isDigit)
      if ip = [] ∧ fp = [] then none
      else (parseExp rest3).map fun e =>
        ((digitsToNat ip : Rq) + (digitsToNat fp : Rq) / (10 : Rq) ^ fp.length) * e
  | _ =>
      if ip = [] then none
      else (parseExp rest).map fun e => (digitsToNat ip : Rq) * e

/-- ASCII-case-insensitive keyword comparison. -/
def caseEq (s kw : List Char) : Bool := s.map Char.toLower = kw

/-- Model of Rust `str::parse::<f32>` on `List Char`; `none` is a
`ParseFloatError`. -/
def parseF (s : List Char) : Option FV :=
  let (neg, body) :=
    match s with
    | '+' :: r => (false, r)
    | '-' :: r => (true, r)
    | r => (false, r)
  if caseEq body "inf".toList ∨ caseEq body "infinity".toList then
    some (if neg then .neginf else .inf)
  else if caseEq body "nan".toList then some .nan
  else (parseDec body).map fun q => .num (if neg then -q else q)

/-- `value <= 0.0` on an `f32` (false on NaN). -/
def FV.le0 : FV → Bool
  | .num q => decide q.le0
  | .neginf => true
  | .inf => false
  | .nan => false

/-- `f32::is_normal`, on an exact rational with positive denominator:
`2⁻¹²⁶ ≤ |q|`, i.e. `den ≤ 2¹²⁶ · |num|` (also false at `0`). -/
def FV.isNormal : FV → Bool
  | .num q => q.den ≤ 2 ^ 126 * |q.num|
  | _ => false

/-- The rational carried by a finite value (the non-`num` cases are never
reached behind `isNormal`). -/
def FV.toQ : FV → Rq
  | .num q => q
  | _ => 0

/-- `parse_float_value` of `gauge.rs`. -/
def parse_float_value (s : List Char) : Except GError Rq :=
  match parseF s with
  | none => .error .FloatParseError
  | some v =>
      if v.le0 then .error (.TooSmall v)
      else if ¬v.isNormal then .error (.Abnormal v)
      else .ok v.toQ

/-- `SUFFIXES` of `gauge.rs`, in declaration order. -/
def SUFFIXES : List (List Char × Rq) :=
  [("cm".toList, 1), ("mm".toList, ⟨1, 10⟩),
   ("\"".toList, CM_PER_INCH), ("in".toList, CM_PER_INCH)]

/-- `str::strip_suffix`. -/
def dropSuffix (s suf : List Char) : Option (List Char) :=
  if suf.length ≤ s.length ∧ s.drop (s.length - suf.length) = suf then
    some (s.take (s.length - suf.length))
  else none

/-- The suffix loop of `Part::from_str`. -/
def fromStrAux : List (List Char × Rq) → List Char → Except GError Part
  | [], s => (parse_float_value s).map fun v => ⟨.Items, v⟩
  | (suf, mult) :: rest, s =>
      match dropSuffix s suf with
      | some vs => (parse_float_value vs).map fun v => ⟨.Length, v * mult⟩
      | none => fromStrAux rest s

/-- `Part::from_str` of `gauge.rs`. -/
def Part.from_str (s : List Char) : Except GError Part :=
  fromStrAux SUFFIXES s

/-- `str::split_once`. -/
def splitOnceChar (c : Char) : List Char → Option (List Char × List Char)
  | [] => none
  | a :: rest =>
      if a = c then some ([], rest)
      else (splitOnceChar c rest).map fun p => (a :: p.1, p.2)

/-- `gauge::parse`. -/
def parse (arg : List Char) : Except GError Rq :=
  match splitOnceChar '/' arg with
  | some (l, r) => do
      let left ← Part.from_str l
      let right ← Part.from_str r
      match left.part_type, right.part_type with
      | .Length, .Items => .ok (right.value / left.value * 10)
      | .Items, .Length => .ok (left.value / right.value * 10)
      | .Items, .Items => .error .BothPartsItems
      | .Length, .Length => .error .BothPartsLength
  | none => parse_float_value arg

end Gauge

/-! ### `mm_to_text` of `fabric_svg.rs` -/

/-- Decimal digits of `n`, most significant first (`write!("{}", n)`),
with fuel for the division recursion. -/
def natDigitsAux : ℕ → ℕ → List ℕ
  | 0, _ => []
  | fuel + 1, n =>
      if n < 10 then [n] else natDigitsAux fuel (n / 10) ++ [n % 10]

/-- Decimal digits of `n`, most significant first. -/
def natDigits (n : ℕ) : List ℕ := natDigitsAux (n + 1) n

/-- Decimal rendering of `n`. -/
def natChars (n : ℕ) : List Char :=
  (natDigits n).map fun d => Char.ofNat (48 + d)

/-- The `while rem_cm > 0` loop of `mm_to_text`: emit `rem / 10`, then
continue with `rem * 10 % 100`.  For `rem < 100` the loop runs at most
twice (the second remainder is a multiple of 10), so fuel 3 is exact. -/
def tensDigits : ℕ → ℕ → List ℕ
  | 0, _ => []
  | fuel + 1, rem =>
      if rem = 0 then [] else rem / 10 :: tensDigits fuel (rem * 10 % 100)

/-- `mm_to_text` of `fabric_svg.rs`. -/
def mm_to_text (mm : ℕ) : List Char :=
  if mm < 10 then natChars mm ++ ['m', 'm']
  else
    let cm := (mm + 5) / 10
    if cm < 100 then natChars cm ++ ['c', 'm']
    else
      natChars (cm / 100)
        ++ (if 0 < cm % 100 then
              '.' :: (tensDigits 3 (cm % 100)).map fun d => Char.ofNat (48 + d)
            else [])
        ++ ['m']

/-- Digit run back to a natural number. -/
def charsToNat (s : List Char) : ℕ :=
  s.foldl (fun a c => 10 * a + (c.toNat - 48)) 0

/-- Value of a fractional digit run (`d₁d₂… ↦ Σ dᵢ · 10⁻ⁱ`). -/
def fracVal (s : List Char) : ℚ :=
  s.foldr (fun c acc => ((c.toNat - 48 : ℕ) : ℚ) / 10 + acc / 10) 0

/-- The length in millimeters denoted by a `mm_to_text` output
(`"<n>mm"`, `"<n>cm"` or `"<int>[.<frac>]m"`). -/
def denoteLen (s : List Char) : ℚ :=
  if s.reverse.take 2 = ['m', 'm'] then ((charsToNat (s.reverse.drop 2).reverse : ℕ) : ℚ)
  else if s.reverse.take 2 = ['m', 'c'] then
    10 * ((charsToNat (s.reverse.drop 2).reverse : ℕ) : ℚ)
  else if s.reverse.take 1 = ['m'] then
    let body := (s.reverse.drop 1).reverse
    let ip := body.takeWhile (· ≠ '.')
    let fp := (body.dropWhile (· ≠ '.')).drop 1
    1000 * (((charsToNat ip : ℕ) : ℚ) + fracVal fp)
  else 0

/-! ### Helper definitions for the statements and proofs -/

/-- Storage index of internal position `p` (`ix + iy * n_stitches`). -/
def posIdx (ns : ℕ) (p : ℕ × ℕ) : ℕ := p.1 + p.2 * ns

/-- The color stored at storage index `i`, if a stitch is present. -/
def colorAt (grid : List (Option Stitch)) (i : ℕ) : Option Color :=
  (grid.getD i none).map (·.color)

/-- Total stitch count over a thread list. -/
def sumCounts (ts : List Thread) : ℕ := (ts.map (·.stitch_count)).sum

/-- Number of present stitches in a grid. -/
def presentCount (grid : List (Option Stitch)) : ℕ :=
  (grid.filter (·.isSome)).length

/-- Whether a user-coordinate endpoint is rejected by link validation,
as the spec words it: outside `[1..n_stitches] × [1..n_rows]` or its
stitch is absent. -/
def badPos (grid : List (Option Stitch)) (ns nr : ℕ) (p : ℕ × ℕ) : Prop :=
  p.1 = 0 ∨ ns < p.1 ∨ p.2 = 0 ∨ nr < p.2
    ∨ look_up_link_position grid ns nr p = none

instance (grid : List (Option Stitch)) (ns nr : ℕ) (p : ℕ × ℕ) :
    Decidable (badPos grid ns nr p) := by
  unfold badPos; infer_instance

/-- The error a single link elicits, per the spec's priority order:
source position, dest position, gap bound, color mismatch. -/
def linkErrSpec (grid : List (Option Stitch)) (ns nr : ℕ) (allow : Bool)
    (l : Link) : Option Err :=
  if badPos grid ns nr l.source then
    some (.PosOutsideOfFabric l.source.1 l.source.2)
  else if badPos grid ns nr l.dest then
    some (.PosOutsideOfFabric l.dest.1 l.dest.2)
  else if allow = false ∧ (MAX_STITCH_GAP < absDiff l.source.1 l.dest.1
      ∨ MAX_ROW_GAP < absDiff l.source.2 l.dest.2) then
    some (.LinkTooFar l)
  else if look_up_link_position grid ns nr l.source
      ≠ look_up_link_position grid ns nr l.dest then
    some (.LinkToDifferentColor l)
  else
    none

/-- Reference neighbor scan for C9: same recency-ordered walk as
`find_neighboring_thread` but with no early break and with the row gap
taken in exact (non-wrapping) arithmetic. -/
def fnbFullAux (c : Color) (x y : ℕ) : List Thread → Option ℕ
  | [] => none
  | t :: rest =>
      if y ≤ t.y ∧ t.y - y ≤ MAX_ROW_GAP ∧ t.color = c
          ∧ absDiff t.x x ≤ MAX_STITCH_GAP then some rest.length
      else fnbFullAux c x y rest

/-- The break-free exact-arithmetic neighbor scan. -/
def findNeighborFull (ts : List Thread) (c : Color) (x y : ℕ) : Option ℕ :=
  fnbFullAux c x y ts.reverse

/-! ### Concrete inputs -/

/-- Black, as the fabric test image encodes it. -/
def blackC : Color := (0, 0, 0)

/-- White, as the fabric test image encodes it. -/
def whiteC : Color := (255, 255, 255)

/-- The 6×6 `FAKE_IMAGE_DATA` rows of `fabric.rs` (1 = `#` = black,
0 = space = white), top row first. -/
def squaresRows : List (List ℕ) :=
  [[1, 1, 0, 0, 1, 1],
   [1, 1, 0, 0, 1, 1],
   [0, 1, 1, 1, 1, 0],
   [0, 1, 1, 1, 1, 0],
   [1, 1, 0, 0, 1, 1],
   [1, 1, 0, 0, 1, 1]]

/-- The 6×6 test image of C3. -/
def squaresImage : ImageData :=
  { width := 6, height := 6,
    pixel := fun x y =>
      if ((squaresRows.getD y []).getD x 0) = 1 then some blackC
      else some whiteC }

/-- The C3 dimensions: `stitches = 6`, gauge 1/1, stockinette, no links. -/
def squaresDims : Dimensions :=
  { stitches := 6, gauge_stitches := 1, gauge_rows := 1,
    cm_per_stitch := none, duplicate_rows := 1, allow_link_gaps := false,
    links := [], stitch_text := .thread }

/-- A single black pixel. -/
def onePixelImage : ImageData :=
  { width := 1, height := 1, pixel := fun _ _ => some blackC }

/-- Trivial dimensions: one stitch, gauge 1/1. -/
def onePixelDims : Dimensions :=
  { stitches := 1, gauge_stitches := 1, gauge_rows := 1,
    cm_per_stitch := none, duplicate_rows := 1, allow_link_gaps := false,
    links := [], stitch_text := .thread }

/-- The fabric produced by the C7 witness run (one black pixel, one
stitch). -/
def w7fab : Fabric :=
  ⟨[some ⟨blackC, 0⟩, some ⟨blackC, 0⟩, some ⟨blackC, 0⟩, some ⟨blackC, 0⟩],
   2, 2, [⟨1, 0, 0, blackC, 4⟩]⟩

def w7dims : Dimensions :=
  ⟨2, 1, ⟨2, 1⟩, none, 2, true, [], .thread⟩

def w4sampler : Sampler := ⟨onePixelImage, 0, 0⟩

/-- A sampler on the one-pixel image with cell size 1: at `x = 5` its
clamped `end_x` (1) falls below its unclamped `start_x` (5) while the row
range is nonempty, so the triangle samplers hit the `u32` underflow. -/
def w4panic : Sampler := ⟨onePixelImage, 1, 1⟩

def w5grid : List (Option Stitch) := [some ⟨blackC, 0⟩]

def w5link : Link := ⟨(5, 1), (1, 1)⟩

def w2img : ImageData := { width := 2, height := 1, pixel := fun _ _ => some blackC }

def w2dims : Dimensions :=
  { stitches := 2, gauge_stitches := 1, gauge_rows := 1,
    cm_per_stitch := none, duplicate_rows := 1, allow_link_gaps := false,
    links := [⟨(1, 1), (2, 1)⟩], stitch_text := .thread }

def w2fab : Fabric :=
  ⟨[some ⟨blackC, 0⟩, some ⟨blackC, 0⟩], 2, 1, [⟨0, 0, 0, blackC, 2⟩]⟩

/-- Soundness of a link map against a grid: every binding joins two
present, same-colored user positions. -/
def LinkMapOk (lm : LinkMap) (grid : List (Option Stitch)) (ns nr : ℕ) : Prop :=
  ∀ k d2, lm k = some d2 →
    look_up_link_position grid ns nr k ≠ none ∧
    look_up_link_position grid ns nr k = look_up_link_position grid ns nr d2

/-- Sweep invariant on the thread list: each thread sits on a present
stitch of its color, ids are exactly `0..len-1` as a multiset, counts are
positive, rows are in range, and the recency list is non-increasing in
`y` from oldest to newest. -/
def ThreadInv (ns nr : ℕ) (grid : List (Option Stitch)) (ts : List Thread) : Prop :=
  (∀ t ∈ ts, colorAt grid (posIdx ns (t.x, t.y)) = some t.color)
  ∧ (ts.map (·.id)).Perm (List.range ts.length)
  ∧ (∀ t ∈ ts, 1 ≤ t.stitch_count)
  ∧ (∀ t ∈ ts, t.y < nr)
  ∧ ts.Pairwise (fun u v => v.y ≤ u.y)

/-- Every in-bounds present stitch is either already assigned to a thread
of its color or still waiting in the remaining sweep positions. -/
def AssignedInv (ns : ℕ) (grid : List (Option Stitch)) (ts : List Thread)
    (rest : List (ℕ × ℕ)) : Prop :=
  ∀ j s, grid.getD j none = some s → j < grid.length →
    (∃ t ∈ ts, t.id = s.thread ∧ t.color = s.color) ∨ ∃ p ∈ rest, posIdx ns p = j

/-- The fabric produced by the C1/C10 witness run (one black pixel, one
stitch, gauge 1/1). -/
def w1fab : Fabric :=
  ⟨[some ⟨blackC, 0⟩], 1, 1, [⟨0, 0, 0, blackC, 1⟩]⟩

/-- The resampled grid of the C9 witness run. -/
def w9grid : List (Option Stitch) := [some ⟨blackC, 0⟩]

/-! ## Theorems -/

set_option maxRecDepth 40000

/-- C3: on the 6×6 two-tone test image with `stitches = 6`, gauge 1/1,
`duplicate_rows = 1` and no links, `Fabric::new` yields a 6×6 fabric with
7 threads whose stitch counts by id are `[16, 4, 4, 2, 2, 4, 4]`, and the
stated stitch-to-thread-id grid in storage order. -/
theorem claim3_six_square_scenario :
    (Fabric.new squaresImage squaresDims).map (Except.map fun f =>
      (f.n_stitches, f.n_rows)) = some (.ok (6, 6))
    ∧ (Fabric.new squaresImage squaresDims).map (Except.map fun f =>
      f.threads.map fun t => (t.id, t.stitch_count)) =
      some (.ok [(0, 16), (1, 4), (2, 4), (3, 2), (4, 2), (5, 4), (6, 4)])
    ∧ (Fabric.new squaresImage squaresDims).map (Except.map fun f =>
      f.stitches.map fun s => s.map (·.thread)) =
      some (.ok
      [some 6, some 6, some 5, some 5, some 0, some 0,
       some 6, some 6, some 5, some 5, some 0, some 0,
       some 4, some 0, some 0, some 0, some 0, some 3,
       some 4, some 0, some 0, some 0, some 0, some 3,
       some 2, some 2, some 1, some 1, some 0, some 0,
       some 2, some 2, some 1, some 1, some 0, some 0]) :=
  ⟨by decide, by decide, by decide⟩

/-! ### C8: yarn-length formatting -/


theorem natDigitsAux_lt10 : ∀ fuel n, ∀ d ∈ natDigitsAux fuel n, d < 10 := by
  intro fuel
  induction fuel with
  | zero => intro n d hd; simp [natDigitsAux] at hd
  | succ f ih =>
      intro n d hd
      by_cases h : n < 10
      · simp [natDigitsAux, h] at hd; omega
      · simp [natDigitsAux, h] at hd
        rcases hd with hd | hd
        · exact ih _ _ hd
        · omega

theorem natDigits_lt10 (n : ℕ) : ∀ d ∈ natDigits n, d < 10 :=
  natDigitsAux_lt10 _ n

theorem natDigitsAux_ne_nil (f n : ℕ) : natDigitsAux (f + 1) n ≠ [] := by
  by_cases h : n < 10 <;> simp [natDigitsAux, h]

theorem natDigitsAux_val : ∀ fuel n, n < 10 ^ fuel →
    (natDigitsAux fuel n).foldl (fun a d => 10 * a + d) 0 = n := by
  intro fuel
  induction fuel with
  | zero => intro n h; simp at h; simp [natDigitsAux, h]
  | succ f ih =>
      intro n h
      by_cases h10 : n < 10
      · simp [natDigitsAux, h10]
      · have hdiv : n / 10 < 10 ^ f := by
          rw [Nat.div_lt_iff_lt_mul (by norm_num)]
          calc n < 10 ^ (f + 1) := h
            _ = 10 ^ f * 10 := by ring
        simp only [natDigitsAux, h10, if_false, List.foldl_append]
        rw [ih _ hdiv]
        simp [Nat.div_add_mod]

theorem natDigits_val (n : ℕ) :
    (natDigits n).foldl (fun a d => 10 * a + d) 0 = n := by
  apply natDigitsAux_val
  calc n < 10 ^ n := Nat.lt_pow_self (by norm_num) n
    _ ≤ 10 ^ (n + 1) := Nat.pow_le_pow_right (by norm_num) (Nat.le_succ n)

theorem toNat_ofNat_digit (d : ℕ) (hd : d < 10) :
    (Char.ofNat (48 + d)).toNat = 48 + d := by
  interval_cases d <;> decide

theorem charsToNat_mapDigits :
    ∀ (l : List ℕ) (a : ℕ), (∀ d ∈ l, d < 10) →
    (l.map fun d => Char.ofNat (48 + d)).foldl
        (fun a c => 10 * a + (c.toNat - 48)) a =
      l.foldl (fun a d => 10 * a + d) a := by
  intro l
  induction l with
  | nil => intro a _; rfl
  | cons d rest ih =>
      intro a hl
      have hd : d < 10 := hl d (by simp)
      simp only [List.map_cons, List.foldl_cons]
      rw [toNat_ofNat_digit d hd]
      have : 48 + d - 48 = d := by omega
      rw [this]
      exact ih _ fun x hx => hl x (by simp [hx])

theorem charsToNat_natChars (n : ℕ) : charsToNat (natChars n) = n := by
  unfold charsToNat natChars
  rw [charsToNat_mapDigits _ 0 (natDigits_lt10 n)]
  exact natDigits_val n

theorem natChars_ne_nil (n : ℕ) : natChars n ≠ [] := by
  unfold natChars natDigits
  simp only [ne_eq, List.map_eq_nil_iff]
  exact natDigitsAux_ne_nil n n

theorem natChars_digit_mem (n : ℕ) :
    ∀ c ∈ natChars n, c ≠ 'm' ∧ c ≠ 'c' ∧ c ≠ '.' := by
  intro c hc
  unfold natChars at hc
  rcases List.mem_map.mp hc with ⟨d, hd, rfl⟩
  have : d < 10 := natDigits_lt10 n d hd
  interval_cases d <;> exact ⟨by decide, by decide, by decide⟩



theorem denoteLen_mmCase (l : List Char) :
    denoteLen (l ++ ['m', 'm']) = (charsToNat l : ℚ) := by
  simp [denoteLen]

theorem denoteLen_cmCase (l : List Char) :
    denoteLen (l ++ ['c', 'm']) = 10 * (charsToNat l : ℚ) := by
  simp [denoteLen]

theorem denoteLen_mCase (l : List Char) (c : Char)
    (hm : c ≠ 'm') (hc : c ≠ 'c') :
    denoteLen ((l ++ [c]) ++ ['m']) =
      1000 * (((charsToNat ((l ++ [c]).takeWhile (· ≠ '.')) : ℕ) : ℚ)
        + fracVal (((l ++ [c]).dropWhile (· ≠ '.')).drop 1)) := by
  simp [denoteLen, hm, hc]

theorem takeWhile_append_sat {p : Char → Bool} (l r : List Char)
    (hl : ∀ a ∈ l, p a = true) :
    (l ++ r).takeWhile p = l ++ r.takeWhile p := by
  induction l with
  | nil => simp
  | cons a t ih =>
      have ha : p a = true := hl a (by simp)
      simp only [List.cons_append, List.takeWhile_cons, ha, if_true]
      rw [ih fun x hx => hl x (by simp [hx])]

theorem dropWhile_append_sat {p : Char → Bool} (l r : List Char)
    (hl : ∀ a ∈ l, p a = true) :
    (l ++ r).dropWhile p = r.dropWhile p := by
  induction l with
  | nil => simp
  | cons a t ih =>
      have ha : p a = true := hl a (by simp)
      simp only [List.cons_append, List.dropWhile_cons, ha, if_true]
      exact ih fun x hx => hl x (by simp [hx])



theorem tensDigits_lt10 : ∀ fuel r, r < 100 → ∀ d ∈ tensDigits fuel r, d < 10 := by
  intro fuel
  induction fuel with
  | zero => intro r _ d hd; simp [tensDigits] at hd
  | succ f ih =>
      intro r hr d hd
      by_cases h0 : r = 0
      · simp [tensDigits, h0] at hd
      · simp [tensDigits, h0] at hd
        rcases hd with hd | hd
        · omega
        · exact ih _ (Nat.mod_lt _ (by norm_num)) d hd

theorem fracVal_tens (r : ℕ) (h0 : 0 < r) (h100 : r < 100) :
    fracVal ((tensDigits 3 r).map fun d => Char.ofNat (48 + d)) =
      (r : ℚ) / 100 := by
  have key : (r : ℚ) = 10 * ((r / 10 : ℕ) : ℚ) + ((r % 10 : ℕ) : ℚ) := by
    exact_mod_cast (Nat.div_add_mod r 10).symm
  have hr10 : r * 10 % 100 = r % 10 * 10 := by omega
  have hne : r ≠ 0 := by omega
  by_cases hm : r % 10 = 0
  · have hts : tensDigits 3 r = [r / 10] := by
      simp [tensDigits, hne, hr10, hm]
    rw [hts]
    simp only [List.map_cons, List.map_nil]
    show (((Char.ofNat (48 + r / 10)).toNat - 48 : ℕ) : ℚ) / 10 + 0 / 10 =
      (r : ℚ) / 100
    rw [toNat_ofNat_digit _ (by omega), Nat.add_sub_cancel_left]
    rw [hm] at key
    push_cast at key ⊢
    linarith
  · have h2 : r % 10 * 10 ≠ 0 := by omega
    have h3 : r % 10 * 10 * 10 % 100 = 0 := by omega
    have h4 : r % 10 * 10 / 10 = r % 10 := by omega
    have hts : tensDigits 3 r = [r / 10, r % 10] := by
      simp [tensDigits, hne, hr10, hm, h2, h3, h4]
    rw [hts]
    simp only [List.map_cons, List.map_nil]
    show (((Char.ofNat (48 + r / 10)).toNat - 48 : ℕ) : ℚ) / 10 +
      ((((Char.ofNat (48 + r % 10)).toNat - 48 : ℕ) : ℚ) / 10 + 0 / 10) / 10 =
      (r : ℚ) / 100
    rw [toNat_ofNat_digit _ (by omega), toNat_ofNat_digit _ (by omega),
      Nat.add_sub_cancel_left, Nat.add_sub_cancel_left]
    push_cast at key ⊢
    linarith



theorem natChars_not_dot (n : ℕ) :
    ∀ a ∈ natChars n, (a ≠ '.' : Bool) = true := by
  intro a ha
  simp only [ne_eq, decide_eq_true_eq]
  exact (natChars_digit_mem n a ha).2.2

theorem denote_mm_to_text (mm : ℕ) :
    denoteLen (mm_to_text mm) =
      if mm < 10 then (mm : ℚ) else 10 * (((mm + 5) / 10 : ℕ) : ℚ) := by
  by_cases h10 : mm < 10
  · rw [if_pos h10]
    rw [show mm_to_text mm = natChars mm ++ ['m', 'm'] by
      simp [mm_to_text, h10]]
    rw [denoteLen_mmCase, charsToNat_natChars]
  · rw [if_neg h10]
    set cm := (mm + 5) / 10 with hcm
    by_cases h100 : cm < 100
    · rw [show mm_to_text mm = natChars cm ++ ['c', 'm'] by
        simp [mm_to_text, h10, hcm, h100]]
      rw [denoteLen_cmCase, charsToNat_natChars]
    · have hkey : cm = 100 * (cm / 100) + cm % 100 :=
        (Nat.div_add_mod cm 100).symm
      have hshape0 : mm_to_text mm = natChars (cm / 100) ++
          ((if 0 < cm % 100 then
              '.' :: ((tensDigits 3 (cm % 100)).map fun d => Char.ofNat (48 + d))
            else []) ++ ['m']) := by
        simp [mm_to_text, h10, ← hcm, h100]
      by_cases hr0 : 0 < cm % 100
      · -- fractional meters
        rw [if_pos hr0] at hshape0
        set tc : List Char :=
          (tensDigits 3 (cm % 100)).map fun d => Char.ofNat (48 + d) with htc
        have htcne : tc ≠ [] := by
          have hu : tensDigits 3 (cm % 100) =
              cm % 100 / 10 :: tensDigits 2 (cm % 100 * 10 % 100) := by
            rw [show tensDigits 3 (cm % 100) = if cm % 100 = 0 then [] else
                cm % 100 / 10 :: tensDigits 2 (cm % 100 * 10 % 100) from rfl,
              if_neg (Nat.pos_iff_ne_zero.mp hr0)]
          rw [htc, hu]
          simp
        obtain ⟨tl, c, hsplit⟩ := (List.eq_nil_or_concat tc).resolve_left htcne
        rw [List.concat_eq_append] at hsplit
        have hcmem : c ∈ tc := by rw [hsplit]; simp
        have hcd : c ≠ 'm' ∧ c ≠ 'c' := by
          rcases List.mem_map.mp (htc ▸ hcmem) with ⟨d, hd, rfl⟩
          have : d < 10 :=
            tensDigits_lt10 3 (cm % 100) (Nat.mod_lt _ (by norm_num)) d hd
          interval_cases d <;> exact ⟨by decide, by decide⟩
        have hshape : mm_to_text mm =
            ((natChars (cm / 100) ++ '.' :: tl) ++ [c]) ++ ['m'] := by
          rw [hshape0, hsplit]
          simp only [List.append_assoc, List.cons_append, List.nil_append]
        rw [hshape, denoteLen_mCase _ _ hcd.1 hcd.2]
        have hbody : (natChars (cm / 100) ++ '.' :: tl) ++ [c] =
            natChars (cm / 100) ++ ('.' :: tc) := by
          rw [hsplit]; simp
        rw [hbody]
        rw [takeWhile_append_sat _ _ (natChars_not_dot _),
          dropWhile_append_sat _ _ (natChars_not_dot _)]
        simp only [List.takeWhile_cons, List.dropWhile_cons]
        norm_num
        rw [charsToNat_natChars]
        rw [htc, fracVal_tens (cm % 100) hr0 (Nat.mod_lt _ (by norm_num))]
        have key : (cm : ℚ) =
            100 * ((cm / 100 : ℕ) : ℚ) + ((cm % 100 : ℕ) : ℚ) := by
          exact_mod_cast hkey
        rw [key]
        ring
      · -- whole meters
        rw [if_neg hr0] at hshape0
        obtain ⟨l, c, hsplit⟩ :=
          (List.eq_nil_or_concat (natChars (cm / 100))).resolve_left
            (natChars_ne_nil _)
        rw [List.concat_eq_append] at hsplit
        have hcmem : c ∈ natChars (cm / 100) := by rw [hsplit]; simp
        have hcd := natChars_digit_mem _ c hcmem
        have hshape : mm_to_text mm = (l ++ [c]) ++ ['m'] := by
          rw [hshape0, hsplit]
          simp only [List.append_assoc, List.cons_append, List.nil_append]
        rw [hshape, denoteLen_mCase _ _ hcd.1 hcd.2.1, ← hsplit]
        rw [show (natChars (cm / 100)).takeWhile (· ≠ '.') =
              natChars (cm / 100) from by
            have := takeWhile_append_sat (p := (· ≠ '.'))
              (natChars (cm / 100)) [] (natChars_not_dot _)
            simpa using this,
          show (natChars (cm / 100)).dropWhile (· ≠ '.') = [] from by
            have := dropWhile_append_sat (p := (· ≠ '.'))
              (natChars (cm / 100)) [] (natChars_not_dot _)
            simpa using this]
        simp only [List.drop_nil]
        rw [charsToNat_natChars]
        rw [show fracVal [] = 0 from rfl]
        have key : (cm : ℚ) = 100 * ((cm / 100 : ℕ) : ℚ) := by
          have h0 : cm % 100 = 0 := Nat.eq_zero_of_not_pos hr0
          rw [h0, Nat.add_zero] at hkey
          exact_mod_cast hkey
        rw [key]
        ring



theorem claim8_mm_to_text :
    (∀ mm < 10, mm_to_text mm = natChars mm ++ ['m', 'm'])
    ∧ (∀ mm, 10 ≤ mm → (mm + 5) / 10 < 100 →
        mm_to_text mm = natChars ((mm + 5) / 10) ++ ['c', 'm'])
    ∧ mm_to_text 1 = "1mm".toList
    ∧ mm_to_text 994 = "99cm".toList
    ∧ mm_to_text 995 = "1m".toList
    ∧ mm_to_text 1100 = "1.1m".toList
    ∧ mm_to_text 1126 = "1.13m".toList
    ∧ ∀ a b : ℕ, a ≤ b → denoteLen (mm_to_text a) ≤ denoteLen (mm_to_text b) := by
  refine ⟨?_, ?_, by decide, by decide, by decide, by decide, by decide, ?_⟩
  · intro mm h; simp [mm_to_text, h]
  · intro mm h1 h2
    unfold mm_to_text
    rw [if_neg (by omega : ¬ mm < 10), if_pos h2]
  · intro a b hab
    rw [denote_mm_to_text, denote_mm_to_text]
    by_cases hb : b < 10
    · rw [if_pos (by omega), if_pos hb]
      exact_mod_cast hab
    · rw [if_neg hb]
      by_cases ha : a < 10
      · rw [if_pos ha]
        have h1 : 1 ≤ (b + 5) / 10 := by omega
        have : (10 : ℚ) ≤ 10 * (((b + 5) / 10 : ℕ) : ℚ) := by
          have : (1 : ℚ) ≤ (((b + 5) / 10 : ℕ) : ℚ) := by exact_mod_cast h1
          linarith
        have : (a : ℚ) ≤ 10 := by exact_mod_cast Nat.le_of_lt ha |>.trans (le_refl 10)
        linarith
      · rw [if_neg ha]
        have : (a + 5) / 10 ≤ (b + 5) / 10 := Nat.div_le_div_right (by omega)
        have : (((a + 5) / 10 : ℕ) : ℚ) ≤ (((b + 5) / 10 : ℕ) : ℚ) := by
          exact_mod_cast this
        linarith

theorem claim8_witness :
    denoteLen (mm_to_text 994) ≤ denoteLen (mm_to_text 995) :=
  claim8_mm_to_text.2.2.2.2.2.2.2 994 995 (by decide)


/-! ### C6: gauge parsing -/

namespace Gauge

theorem dropSuffix_append (s t : List Char) : dropSuffix (s ++ t) t = some s := by
  unfold dropSuffix
  rw [if_pos]
  · rw [show (s ++ t).length - t.length = s.length by simp]
    rw [List.take_left]
  · constructor
    · simp
    · rw [show (s ++ t).length - t.length = s.length by simp]
      rw [List.drop_left]

theorem getLast_drop_concat (s : List Char) (x : Char) (k : ℕ)
    (hk : k ≤ s.length) : ((s ++ [x]).drop k).getLast? = some x := by
  induction s generalizing k with
  | nil =>
      have hk0 : k = 0 := Nat.le_zero.mp hk
      subst hk0
      simp
  | cons a t ih =>
      cases k with
      | zero =>
          rw [List.drop_zero, show a :: t ++ [x] = (a :: t) ++ [x] from rfl,
            List.getLast?_concat]
      | succ k2 =>
          simp only [List.cons_append, List.drop_succ_cons]
          exact ih k2 (by simpa using hk)

theorem dropSuffix_last_ne (s t : List Char) (x y : Char) (hxy : x ≠ y) :
    dropSuffix (s ++ [x]) (t ++ [y]) = none := by
  unfold dropSuffix
  rw [if_neg]
  rintro ⟨h1, h2⟩
  simp only [List.length_append, List.length_cons, List.length_nil] at h1
  have hk : (s ++ [x]).length - (t ++ [y]).length ≤ s.length := by
    simp only [List.length_append, List.length_cons, List.length_nil]
    omega
  have := congrArg List.getLast? h2
  rw [getLast_drop_concat s x _ hk, List.getLast?_concat] at this
  exact hxy (Option.some.inj this)

theorem splitOnce_append (l r : List Char) (h : '/' ∉ l) :
    splitOnceChar '/' (l ++ '/' :: r) = some (l, r) := by
  induction l with
  | nil => simp [splitOnceChar]
  | cons a t ih =>
      have ha : a ≠ '/' := by intro e; exact h (e ▸ List.mem_cons_self a t)
      rw [show (a :: t) ++ '/' :: r = a :: (t ++ '/' :: r) from rfl]
      rw [show splitOnceChar '/' (a :: (t ++ '/' :: r)) =
          if a = '/' then some ([], t ++ '/' :: r)
          else (splitOnceChar '/' (t ++ '/' :: r)).map fun p =>
            (a :: p.1, p.2) from rfl]
      rw [if_neg ha, ih fun hx => h (List.mem_cons_of_mem a hx)]
      rfl

theorem splitOnce_none (s : List Char) (h : '/' ∉ s) :
    splitOnceChar '/' s = none := by
  induction s with
  | nil => rfl
  | cons a t ih =>
      have ha : a ≠ '/' := by intro e; exact h (e ▸ List.mem_cons_self a t)
      rw [show splitOnceChar '/' (a :: t) =
          if a = '/' then some ([], t)
          else (splitOnceChar '/' t).map fun p => (a :: p.1, p.2) from rfl]
      rw [if_neg ha, ih fun hx => h (List.mem_cons_of_mem a hx)]
      rfl

end Gauge

namespace Gauge

theorem dropSuffix_append_ne (s t t2 : List Char)
    (hlen : t.length = t2.length) (hne : t ≠ t2) :
    dropSuffix (s ++ t) t2 = none := by
  unfold dropSuffix
  rw [if_neg]
  rintro ⟨h1, h2⟩
  rw [show (s ++ t).length - t2.length = s.length by simp [hlen],
    List.drop_left] at h2
  exact hne h2

theorem from_str_cm (s : List Char) :
    Part.from_str (s ++ "cm".toList) =
      (parse_float_value s).map fun v => ⟨.Length, v * 1⟩ := by
  show fromStrAux SUFFIXES (s ++ "cm".toList) = _
  simp only [SUFFIXES, fromStrAux, dropSuffix_append]

theorem from_str_mm (s : List Char) :
    Part.from_str (s ++ "mm".toList) =
      (parse_float_value s).map fun v => ⟨.Length, v * ⟨1, 10⟩⟩ := by
  show fromStrAux SUFFIXES (s ++ "mm".toList) = _
  have h1 : dropSuffix (s ++ "mm".toList) "cm".toList = none :=
    dropSuffix_append_ne s _ _ rfl (by decide)
  simp only [SUFFIXES, fromStrAux, h1, dropSuffix_append]

theorem from_str_inch (s : List Char) :
    Part.from_str (s ++ "\"".toList) =
      (parse_float_value s).map fun v => ⟨.Length, v * CM_PER_INCH⟩ := by
  show fromStrAux SUFFIXES (s ++ "\"".toList) = _
  have h1 : dropSuffix (s ++ "\"".toList) "cm".toList = none :=
    dropSuffix_last_ne s ['c'] '"' 'm' (by decide)
  have h2 : dropSuffix (s ++ "\"".toList) "mm".toList = none :=
    dropSuffix_last_ne s ['m'] '"' 'm' (by decide)
  simp only [SUFFIXES, fromStrAux, h1, h2, dropSuffix_append]

theorem from_str_in (s : List Char) :
    Part.from_str (s ++ "in".toList) =
      (parse_float_value s).map fun v => ⟨.Length, v * CM_PER_INCH⟩ := by
  show fromStrAux SUFFIXES (s ++ "in".toList) = _
  have e : s ++ "in".toList = (s ++ ['i']) ++ ['n'] := by simp
  have h1 : dropSuffix (s ++ "in".toList) "cm".toList = none := by
    rw [e]; exact dropSuffix_last_ne (s ++ ['i']) ['c'] 'n' 'm' (by decide)
  have h2 : dropSuffix (s ++ "in".toList) "mm".toList = none := by
    rw [e]; exact dropSuffix_last_ne (s ++ ['i']) ['m'] 'n' 'm' (by decide)
  have h3 : dropSuffix (s ++ "in".toList) "\"".toList = none := by
    rw [e]; exact dropSuffix_last_ne (s ++ ['i']) [] 'n' '"' (by decide)
  simp only [SUFFIXES, fromStrAux, h1, h2, h3, dropSuffix_append]

theorem from_str_bare (s : List Char)
    (h1 : dropSuffix s "cm".toList = none)
    (h2 : dropSuffix s "mm".toList = none)
    (h3 : dropSuffix s "\"".toList = none)
    (h4 : dropSuffix s "in".toList = none) :
    Part.from_str s = (parse_float_value s).map fun v => ⟨.Items, v⟩ := by
  show fromStrAux SUFFIXES s = _
  simp only [SUFFIXES, fromStrAux, h1, h2, h3, h4]

end Gauge


set_option maxRecDepth 200000 in
open Gauge in
/-- C6: `gauge::parse` on `A/B` divides the items part by the
length-in-cm part and multiplies by 10; each suffix applies its
multiplier (`cm` 1, `mm` 1/10, `"`/`in` 2.54); two length parts give
`BothPartsLength`, two item parts give `BothPartsItems`; a component
value `≤ 0` gives `TooSmall` and a positive non-normal one `Abnormal`;
a slash-free string parses as a bare number. -/
theorem claim6_gauge_parse :
    (∀ (l r : List Char) (v w : Rq), '/' ∉ l →
      Part.from_str l = .ok ⟨.Items, v⟩ →
      Part.from_str r = .ok ⟨.Length, w⟩ →
      Gauge.parse (l ++ '/' :: r) = .ok (v / w * 10))
    ∧ (∀ (l r : List Char) (v w : Rq), '/' ∉ l →
      Part.from_str l = .ok ⟨.Length, v⟩ →
      Part.from_str r = .ok ⟨.Items, w⟩ →
      Gauge.parse (l ++ '/' :: r) = .ok (w / v * 10))
    ∧ (∀ (l r : List Char) (v w : Rq), '/' ∉ l →
      Part.from_str l = .ok ⟨.Length, v⟩ →
      Part.from_str r = .ok ⟨.Length, w⟩ →
      Gauge.parse (l ++ '/' :: r) = .error .BothPartsLength)
    ∧ (∀ (l r : List Char) (v w : Rq), '/' ∉ l →
      Part.from_str l = .ok ⟨.Items, v⟩ →
      Part.from_str r = .ok ⟨.Items, w⟩ →
      Gauge.parse (l ++ '/' :: r) = .error .BothPartsItems)
    ∧ (∀ s : List Char, Part.from_str (s ++ "cm".toList) =
        (parse_float_value s).map fun v => ⟨.Length, v * 1⟩)
    ∧ (∀ s : List Char, Part.from_str (s ++ "mm".toList) =
        (parse_float_value s).map fun v => ⟨.Length, v * ⟨1, 10⟩⟩)
    ∧ (∀ s : List Char, Part.from_str (s ++ "\"".toList) =
        (parse_float_value s).map fun v => ⟨.Length, v * CM_PER_INCH⟩)
    ∧ (∀ s : List Char, Part.from_str (s ++ "in".toList) =
        (parse_float_value s).map fun v => ⟨.Length, v * CM_PER_INCH⟩)
    ∧ (∀ (s : List Char) (v : FV), parseF s = some v → v.le0 = true →
        parse_float_value s = .error (.TooSmall v))
    ∧ (∀ (s : List Char) (v : FV), parseF s = some v → v.le0 = false →
        v.isNormal = false → parse_float_value s = .error (.Abnormal v))
    ∧ (∀ s : List Char, '/' ∉ s → Gauge.parse s = parse_float_value s)
    ∧ Gauge.parse "12in/6cm".toList = .error .BothPartsLength
    ∧ Gauge.parse "12/6".toList = .error .BothPartsItems
    ∧ Gauge.parse "-1".toList = .error (.TooSmall (.num (-1)))
    ∧ Gauge.parse "inf".toList = .error (.Abnormal .inf) := by
  refine ⟨?_, ?_, ?_, ?_, from_str_cm, from_str_mm, from_str_inch, from_str_in,
    ?_, ?_, ?_, by decide, by decide, by decide, by decide⟩
  · intro l r v w h hl hr
    simp only [Gauge.parse, splitOnce_append l r h, hl, hr]
    rfl
  · intro l r v w h hl hr
    simp only [Gauge.parse, splitOnce_append l r h, hl, hr]
    rfl
  · intro l r v w h hl hr
    simp only [Gauge.parse, splitOnce_append l r h, hl, hr]
    rfl
  · intro l r v w h hl hr
    simp only [Gauge.parse, splitOnce_append l r h, hl, hr]
    rfl
  · intro s v hv hle
    simp [parse_float_value, hv, hle]
  · intro s v hv hle hnorm
    simp [parse_float_value, hv, hle, hnorm]
  · intro s h
    simp [Gauge.parse, splitOnce_none s h]

theorem claim6_witness :
    Gauge.parse_float_value "-12".toList =
      .error (.TooSmall (.num (-12))) :=
  claim6_gauge_parse.2.2.2.2.2.2.2.2.1 "-12".toList (.num (-12))
    (by decide) (by decide)


/-! ### C7: the mitre driver -/


theorem MitreImage_new_size (img : ImageData) (n : ℕ) (mi : MitreImage)
    (h : MitreImage.new img n = some mi) : mi.size = n := by
  simp only [MitreImage.new] at h
  obtain ⟨rows, _, heq⟩ := Option.map_eq_some'.mp h
  rw [← heq]

theorem genMitreLinks_eq (mi : MitreImage) (n : ℕ) (hsize : mi.size = n) :
    genMitreLinks mi =
      (List.range (n - 1)).flatMap fun y =>
        let image_y := n - 2 - y
        let left_x := n - y - 2
        let right_x := n + y + 1
        if (mi.get_pixel left_x image_y).isSome
            ∧ mi.get_pixel left_x image_y = mi.get_pixel right_x image_y then
          [⟨(right_x + 1, y * 2 + 3), (left_x + 1, y * 2 + 3)⟩,
           ⟨(left_x + 1, y * 2 + 4), (right_x + 1, y * 2 + 4)⟩]
        else [] := by
  unfold genMitreLinks
  rw [hsize]
  by_cases h1 : 1 < n
  · rw [if_pos h1]
    show List.flatten _ = List.flatten _
    refine congrArg List.flatten (List.map_congr_left fun y hy => ?_)
    have hc : n * 2 / 2 = n := by omega
    simp only [hc]
    cases hl : mi.get_pixel (n - y - 2) (n - 2 - y) with
    | none => simp
    | some c =>
        cases hr : mi.get_pixel (n + y + 1) (n - 2 - y) with
        | none => simp
        | some c2 =>
            by_cases hcc : c = c2
            · subst hcc; simp
            · simp [hcc]
  · rw [if_neg h1]
    rw [show n - 1 = 0 by omega]
    simp

/-- C7: a successful `make_mitre_fabric` returns the input dimensions with
exactly the overrides `gauge_rows = gauge_stitches · 2`,
`duplicate_rows = 2`, `stitches = 2N`, `allow_link_gaps = true`, and the
user links followed by the generated center-seam links: one pair per row
`y ∈ [0, N−2]` whose mirror pixels at `(N−y−2, N−2−y)` and
`(N+y+1, N−2−y)` of the (panic-free) mitre image are present and
equal. -/
theorem claim7_make_mitre_fabric (img : ImageData) (d : Dimensions)
    (f : Fabric) (d2 : Dimensions)
    (h : make_mitre_fabric img d = some (.ok (f, d2))) :
    d2.gauge_rows = d.gauge_stitches * 2
    ∧ d2.duplicate_rows = 2
    ∧ d2.stitches = 2 * d.stitches
    ∧ d2.allow_link_gaps = true
    ∧ d2.gauge_stitches = d.gauge_stitches
    ∧ d2.cm_per_stitch = d.cm_per_stitch
    ∧ d2.stitch_text = d.stitch_text
    ∧ ∃ mi, MitreImage.new img d.stitches = some mi
        ∧ d2.links = d.links ++
          ((List.range (d.stitches - 1)).flatMap fun y =>
            let image_y := d.stitches - 2 - y
            let left_x := d.stitches - y - 2
            let right_x := d.stitches + y + 1
            if (mi.get_pixel left_x image_y).isSome
                ∧ mi.get_pixel left_x image_y = mi.get_pixel right_x image_y then
              [⟨(right_x + 1, y * 2 + 3), (left_x + 1, y * 2 + 3)⟩,
               ⟨(left_x + 1, y * 2 + 4), (right_x + 1, y * 2 + 4)⟩]
            else []) := by
  simp only [make_mitre_fabric] at h
  rcases hmi : MitreImage.new img d.stitches with _ | mi
  · rw [hmi] at h
    exact Option.noConfusion h
  · rw [hmi] at h
    replace h : (Fabric.new mi.toImage
        { d with gauge_rows := d.gauge_stitches * 2,
                 duplicate_rows := 2,
                 stitches := mi.size * 2,
                 allow_link_gaps := true,
                 links := d.links ++ genMitreLinks mi }).map
        (Except.map fun f => (f,
          { d with gauge_rows := d.gauge_stitches * 2,
                   duplicate_rows := 2,
                   stitches := mi.size * 2,
                   allow_link_gaps := true,
                   links := d.links ++ genMitreLinks mi })) =
        some (.ok (f, d2)) := h
    have hsize : mi.size = d.stitches := MitreImage_new_size img d.stitches mi hmi
    obtain ⟨e, he, hmap⟩ := Option.map_eq_some'.mp h
    cases e with
    | error err => simp [Except.map] at hmap
    | ok f0 =>
        simp only [Except.map] at hmap
        obtain ⟨hf, hd2⟩ := Prod.mk.injEq .. |>.mp (Except.ok.inj hmap)
        subst hd2
        refine ⟨rfl, rfl, ?_, rfl, rfl, rfl, rfl, mi, rfl, ?_⟩
        · show mi.size * 2 = 2 * d.stitches
          rw [hsize, Nat.mul_comm]
        · show d.links ++ genMitreLinks mi = _
          rw [genMitreLinks_eq mi d.stitches hsize]

theorem claim7_witness :
    make_mitre_fabric onePixelImage onePixelDims = some (.ok (w7fab, w7dims))
    ∧ w7dims.duplicate_rows = 2 ∧ w7dims.stitches = 2 * onePixelDims.stitches :=
  ⟨by decide,
   (claim7_make_mitre_fabric onePixelImage onePixelDims w7fab w7dims
      (by decide)).2.1,
   (claim7_make_mitre_fabric onePixelImage onePixelDims w7fab w7dims
      (by decide)).2.2.1⟩


/-! ### C4: empty sampling footprints -/


theorem flatMap_const_nil {α β : Type} (l : List α) :
    (l.flatMap fun _ => ([] : List β)) = [] := by
  induction l with
  | nil => rfl
  | cons a t ih => simp [List.flatMap_cons, ih]

theorem regionPixels_empty (sx ex sy ey : ℕ) (h : ex ≤ sx ∨ ey ≤ sy) :
    regionPixels sx ex sy ey = [] := by
  unfold regionPixels
  rcases h with h | h
  · rw [show ex - sx = 0 by omega]
    simp only [List.range'_zero, List.map_nil]
    exact flatMap_const_nil _
  · rw [show ey - sy = 0 by omega]
    rfl

theorem sample_unfold (s : Sampler) (x y rh : ℕ) :
    s.sample x y rh = endCounting (countRegion s.image
      (s.sample_range x y rh).start_x (s.sample_range x y rh).end_x
      (s.sample_range x y rh).start_y (s.sample_range x y rh).end_y) := rfl

theorem lower_triangle_unfold (s : Sampler) (x y : ℕ) :
    s.sample_lower_left_triangle x y =
      if (s.sample_range x y 1).end_y ≤ (s.sample_range x y 1).start_y then
        some none
      else if (s.sample_range x y 1).end_x < (s.sample_range x y 1).start_x then
        none
      else
        some (endCounting ((((List.range' (s.sample_range x y 1).start_y
            ((s.sample_range x y 1).end_y - (s.sample_range x y 1).start_y)).flatMap
            fun py =>
          (List.range' (s.sample_range x y 1).start_x
            (((py + 1 - (s.sample_range x y 1).start_y) *
              ((s.sample_range x y 1).end_x - (s.sample_range x y 1).start_x) +
              ((s.sample_range x y 1).end_y - (s.sample_range x y 1).start_y) / 2) /
              ((s.sample_range x y 1).end_y - (s.sample_range x y 1).start_y))).map
            fun px => (px, py))).foldl
          (fun cs p => bumpColor cs (s.image.pixel p.1 p.2)) [])) := rfl

theorem upper_triangle_unfold (s : Sampler) (x y : ℕ) :
    s.sample_upper_right_triangle x y =
      if (s.sample_range x y 1).end_y ≤ (s.sample_range x y 1).start_y then
        some none
      else if (s.sample_range x y 1).end_x < (s.sample_range x y 1).start_x then
        none
      else
        some (endCounting ((((List.range' (s.sample_range x y 1).start_y
            ((s.sample_range x y 1).end_y - (s.sample_range x y 1).start_y)).flatMap
            fun py =>
          (List.range' ((s.sample_range x y 1).end_x -
              (((s.sample_range x y 1).end_y - (s.sample_range x y 1).start_y +
                (s.sample_range x y 1).start_y - py) *
                ((s.sample_range x y 1).end_x - (s.sample_range x y 1).start_x) +
                ((s.sample_range x y 1).end_y - (s.sample_range x y 1).start_y) / 2) /
                ((s.sample_range x y 1).end_y - (s.sample_range x y 1).start_y))
            ((s.sample_range x y 1).end_x - ((s.sample_range x y 1).end_x -
              (((s.sample_range x y 1).end_y - (s.sample_range x y 1).start_y +
                (s.sample_range x y 1).start_y - py) *
                ((s.sample_range x y 1).end_x - (s.sample_range x y 1).start_x) +
                ((s.sample_range x y 1).end_y - (s.sample_range x y 1).start_y) / 2) /
                ((s.sample_range x y 1).end_y - (s.sample_range x y 1).start_y)))).map
            fun px => (px, py))).foldl
          (fun cs p => bumpColor cs (s.image.pixel p.1 p.2)) [])) := rfl

/-- C4 counterexample: `most_popular_color` on an empty footprint does not
return `None` — the `.unwrap()` inside it panics (the outer `none` of the
model); and the triangle samplers are not total on empty footprints
either: when rounding leaves `end_x < start_x` with a nonempty row range
(here `start_x = 5`, `end_x = 1`, one row), the `u32` subtraction
`end_x - start_x` underflow-panics instead of returning `None`. -/
theorem claim4_counterexample :
    (most_popular_color onePixelImage 0 0 0 0 = none
      ∧ most_popular_color onePixelImage 0 0 0 0 ≠ some .none)
    ∧ ((w4panic.sample_range 5 0 1).end_x < (w4panic.sample_range 5 0 1).start_x
      ∧ (w4panic.sample_range 5 0 1).start_y < (w4panic.sample_range 5 0 1).end_y
      ∧ w4panic.sample_lower_left_triangle 5 0 = none
      ∧ w4panic.sample_upper_right_triangle 5 0 = none) := by
  refine ⟨⟨rfl, by decide⟩, by decide, by decide, rfl, rfl⟩

/-- C4 (amended): `Sampler::sample` returns `None` on every empty pixel
footprint; the triangle samplers return `None` when the row range is
empty (`end_y ≤ start_y`, checked before any subtraction) and when
`end_x = start_x` on a nonempty row range — but when rounding makes
`end_x < start_x` (reachable, since `end_x` is clamped to the image width
and `start_x` is not) they panic on the `u32` width `end_x − start_x`
instead of returning `None`; and `most_popular_color` of `fabric.rs` hits
its `.unwrap()` panic on every empty footprint instead of returning
`None`. -/
theorem claim4_empty_footprint :
    (∀ (img : ImageData) (sx ex sy ey : ℕ), ex ≤ sx ∨ ey ≤ sy →
      most_popular_color img sx ex sy ey = none)
    ∧ (∀ (s : Sampler) (x y rh : ℕ),
        (s.sample_range x y rh).end_x ≤ (s.sample_range x y rh).start_x
          ∨ (s.sample_range x y rh).end_y ≤ (s.sample_range x y rh).start_y →
        s.sample x y rh = none)
    ∧ (∀ (s : Sampler) (x y : ℕ),
        (s.sample_range x y 1).end_y ≤ (s.sample_range x y 1).start_y
          ∨ (s.sample_range x y 1).end_x = (s.sample_range x y 1).start_x →
        s.sample_lower_left_triangle x y = some none)
    ∧ (∀ (s : Sampler) (x y : ℕ),
        (s.sample_range x y 1).end_y ≤ (s.sample_range x y 1).start_y
          ∨ (s.sample_range x y 1).end_x = (s.sample_range x y 1).start_x →
        s.sample_upper_right_triangle x y = some none)
    ∧ (∀ (s : Sampler) (x y : ℕ),
        (s.sample_range x y 1).start_y < (s.sample_range x y 1).end_y →
        (s.sample_range x y 1).end_x < (s.sample_range x y 1).start_x →
        s.sample_lower_left_triangle x y = none)
    ∧ (∀ (s : Sampler) (x y : ℕ),
        (s.sample_range x y 1).start_y < (s.sample_range x y 1).end_y →
        (s.sample_range x y 1).end_x < (s.sample_range x y 1).start_x →
        s.sample_upper_right_triangle x y = none) := by
  refine ⟨?_, ?_, ?_, ?_, ?_, ?_⟩
  · intro img sx ex sy ey h
    unfold most_popular_color countRegion
    rw [regionPixels_empty _ _ _ _ h]
    rfl
  · intro s x y rh h
    rw [sample_unfold]
    unfold countRegion
    rw [regionPixels_empty _ _ _ _ h]
    rfl
  · intro s x y h
    rw [lower_triangle_unfold]
    by_cases hy : (s.sample_range x y 1).end_y ≤ (s.sample_range x y 1).start_y
    · rw [if_pos hy]
    · have hx := h.resolve_left hy
      rw [if_neg hy, if_neg (by omega)]
      have hz : ∀ py : ℕ,
          ((py + 1 - (s.sample_range x y 1).start_y) *
            ((s.sample_range x y 1).end_x - (s.sample_range x y 1).start_x) +
            ((s.sample_range x y 1).end_y - (s.sample_range x y 1).start_y) / 2) /
            ((s.sample_range x y 1).end_y - (s.sample_range x y 1).start_y) = 0 := by
        intro py
        rw [show (s.sample_range x y 1).end_x - (s.sample_range x y 1).start_x = 0
          by omega]
        rw [Nat.mul_zero, Nat.zero_add]
        apply Nat.div_eq_of_lt
        omega
      simp only [hz, List.range'_zero, List.map_nil]
      rw [flatMap_const_nil]
      rfl
  · intro s x y h
    rw [upper_triangle_unfold]
    by_cases hy : (s.sample_range x y 1).end_y ≤ (s.sample_range x y 1).start_y
    · rw [if_pos hy]
    · have hx := h.resolve_left hy
      rw [if_neg hy, if_neg (by omega)]
      have hz : ∀ py : ℕ,
          (((s.sample_range x y 1).end_y - (s.sample_range x y 1).start_y +
              (s.sample_range x y 1).start_y - py) *
            ((s.sample_range x y 1).end_x - (s.sample_range x y 1).start_x) +
            ((s.sample_range x y 1).end_y - (s.sample_range x y 1).start_y) / 2) /
            ((s.sample_range x y 1).end_y - (s.sample_range x y 1).start_y) = 0 := by
        intro py
        rw [show (s.sample_range x y 1).end_x - (s.sample_range x y 1).start_x = 0
          by omega]
        rw [Nat.mul_zero, Nat.zero_add]
        apply Nat.div_eq_of_lt
        omega
      simp only [hz, Nat.sub_zero, Nat.sub_self, List.range'_zero, List.map_nil]
      rw [flatMap_const_nil]
      rfl
  · intro s x y hy hx
    rw [lower_triangle_unfold, if_neg (by omega), if_pos hx]
  · intro s x y hy hx
    rw [upper_triangle_unfold, if_neg (by omega), if_pos hx]

theorem claim4_witness :
    ((w4sampler.sample_range 0 0 1).end_x ≤ (w4sampler.sample_range 0 0 1).start_x
      ∧ w4sampler.sample 0 0 1 = none)
    ∧ ((w4panic.sample_range 5 0 1).start_y < (w4panic.sample_range 5 0 1).end_y
      ∧ (w4panic.sample_range 5 0 1).end_x < (w4panic.sample_range 5 0 1).start_x
      ∧ w4panic.sample_lower_left_triangle 5 0 = none) :=
  ⟨⟨by decide, claim4_empty_footprint.2.1 w4sampler 0 0 1 (Or.inl (by decide))⟩,
   ⟨by decide, by decide,
    claim4_empty_footprint.2.2.2.2.1 w4panic 5 0 (by decide) (by decide)⟩⟩


/-! ### C5: link validation -/


theorem processLink_eq (grid : List (Option Stitch)) (ns nr : ℕ)
    (allow : Bool) (m : LinkMap) (l : Link) :
    processLink grid ns nr allow m l =
      match linkErrSpec grid ns nr allow l with
      | some e => .error e
      | none =>
          if compare_position_thread_order l.source l.dest = .gt then
            .ok (lmInsert m l.source l.dest)
          else .ok (lmInsert m l.dest l.source) := by
  unfold processLink linkErrSpec validate_link_pos badPos
  by_cases hs : l.source.1 = 0 ∨ ns < l.source.1 ∨ l.source.2 = 0
      ∨ nr < l.source.2 ∨ look_up_link_position grid ns nr l.source = none
  · rw [if_pos hs, if_pos hs]
    rfl
  · rw [if_neg hs, if_neg hs]
    by_cases hd : l.dest.1 = 0 ∨ ns < l.dest.1 ∨ l.dest.2 = 0
        ∨ nr < l.dest.2 ∨ look_up_link_position grid ns nr l.dest = none
    · rw [if_pos hd, if_pos hd]
      rfl
    · rw [if_neg hd, if_neg hd]
      by_cases hgap : allow = false
          ∧ (MAX_STITCH_GAP < absDiff l.source.1 l.dest.1
            ∨ MAX_ROW_GAP < absDiff l.source.2 l.dest.2)
      · rw [if_pos (show ((!allow) = true) ∧ _ from
            ⟨by simp [hgap.1], hgap.2⟩), if_pos hgap]
        rfl
      · rw [if_neg (show ¬(((!allow) = true) ∧ _) from
            fun hc => hgap ⟨by simpa using hc.1, hc.2⟩), if_neg hgap]
        by_cases hcol : look_up_link_position grid ns nr l.source
            ≠ look_up_link_position grid ns nr l.dest
        · rw [if_pos hcol, if_pos hcol]
          rfl
        · rw [if_neg hcol, if_neg hcol]
          rfl



theorem foldlM_links_error_iff (grid : List (Option Stitch)) (ns nr : ℕ)
    (allow : Bool) :
    ∀ (links : List Link) (m : LinkMap) (e : Err),
      (links.foldlM (processLink grid ns nr allow) m = .error e ↔
        ∃ n l, links.get? n = some l
          ∧ linkErrSpec grid ns nr allow l = some e
          ∧ ∀ m2 < n, ∀ l2, links.get? m2 = some l2 →
              linkErrSpec grid ns nr allow l2 = none) := by
  intro links
  induction links with
  | nil =>
      intro m e
      simp [List.foldlM, pure, Except.pure]
  | cons l rest ih =>
      intro m e
      rw [show (l :: rest).foldlM (processLink grid ns nr allow) m =
          processLink grid ns nr allow m l >>= fun m2 =>
            rest.foldlM (processLink grid ns nr allow) m2 from rfl]
      rw [processLink_eq]
      cases hspec : linkErrSpec grid ns nr allow l with
      | some e0 =>
          constructor
          · intro h
            have he : e0 = e := by
              cases hcmp : compare_position_thread_order l.source l.dest
                  == Ordering.gt
              all_goals
                simp only [Except.bind] at h
                exact (Except.error.inj h)
            exact ⟨0, l, rfl, by rw [hspec, he], by omega⟩
          · rintro ⟨n, l2, hget, herr, hbefore⟩
            cases n with
            | zero =>
                rw [show (l :: rest).get? 0 = some l from rfl] at hget
                have : l2 = l := (Option.some.inj hget).symm
                subst this
                rw [hspec] at herr
                have : e0 = e := Option.some.inj herr
                subst this
                rfl
            | succ n2 =>
                have := hbefore 0 (by omega) l rfl
                rw [hspec] at this
                exact absurd this (by simp)
      | none =>
          rw [show ((match (none : Option Err) with
              | some e => Except.error e
              | none =>
                  if compare_position_thread_order l.source l.dest = .gt then
                    Except.ok (lmInsert m l.source l.dest)
                  else Except.ok (lmInsert m l.dest l.source)) >>= fun m2 =>
                rest.foldlM (processLink grid ns nr allow) m2) =
              rest.foldlM (processLink grid ns nr allow)
                (if compare_position_thread_order l.source l.dest = .gt then
                  lmInsert m l.source l.dest
                else lmInsert m l.dest l.source) from by
            by_cases hcmp : compare_position_thread_order l.source l.dest = .gt
            · rw [if_pos hcmp, if_pos hcmp]
              rfl
            · rw [if_neg hcmp, if_neg hcmp]
              rfl]
          rw [ih]
          constructor
          · rintro ⟨n, l2, hget, herr, hbefore⟩
            refine ⟨n + 1, l2, hget, herr, ?_⟩
            intro m2 hm2 l3 hget3
            cases m2 with
            | zero =>
                rw [show (l :: rest).get? 0 = some l from rfl] at hget3
                have : l3 = l := (Option.some.inj hget3).symm
                subst this
                exact hspec
            | succ m3 =>
                exact hbefore m3 (by omega) l3 hget3
          · rintro ⟨n, l2, hget, herr, hbefore⟩
            cases n with
            | zero =>
                rw [show (l :: rest).get? 0 = some l from rfl] at hget
                have : l2 = l := (Option.some.inj hget).symm
                subst this
                rw [hspec] at herr
                exact absurd herr (by simp)
            | succ n2 =>
                exact ⟨n2, l2, hget, herr, fun m2 hm2 l3 hget3 =>
                  hbefore (m2 + 1) (by omega) l3 hget3⟩



/-- C5: link validation processes the list in order and fails exactly on
the first link violating a condition, with the conditions checked in this
order per link: source position, dest position (absent stitch or outside
`[1..n_stitches]×[1..n_rows]` gives `PosOutsideOfFabric`), then the gap
bound (`LinkTooFar` unless `allow_link_gaps`), then color equality
(`LinkToDifferentColor`); on error `Fabric::new` produces that error and
no fabric. -/
theorem claim5_link_validation :
    (∀ (grid : List (Option Stitch)) (ns nr : ℕ) (allow : Bool)
      (links : List Link) (e : Err),
      links_to_hash grid ns nr allow links = .error e ↔
        ∃ n l, links.get? n = some l
          ∧ linkErrSpec grid ns nr allow l = some e
          ∧ ∀ m < n, ∀ l2, links.get? m = some l2 →
              linkErrSpec grid ns nr allow l2 = none)
    ∧ (∀ (img : ImageData) (d : Dimensions) (grid : List (Option Stitch))
      (nRows : ℕ) (e : Err),
      resample img d = some (grid, nRows) →
      links_to_hash grid d.stitches nRows d.allow_link_gaps d.links = .error e →
      Fabric.new img d = some (.error e)) := by
  constructor
  · intro grid ns nr allow links e
    exact foldlM_links_error_iff grid ns nr allow links lmEmpty e
  · intro img d grid nRows e hres hlinks
    unfold Fabric.new
    rw [hres]
    simp only [Option.map_some']
    rw [show ((do
        let lm ← links_to_hash grid d.stitches nRows d.allow_link_gaps d.links
        let (g2, ts) ← calculate_threads d.stitches nRows lm grid
        pure (Fabric.mk g2 d.stitches nRows ts)) : Except Err Fabric) =
      (do
        let lm ← links_to_hash grid d.stitches nRows d.allow_link_gaps d.links
        let p ← calculate_threads d.stitches nRows lm grid
        pure (Fabric.mk p.1 d.stitches nRows p.2)) from by
        cases links_to_hash grid d.stitches nRows d.allow_link_gaps d.links with
        | error e2 => rfl
        | ok lm =>
            show (calculate_threads d.stitches nRows lm grid >>= _) =
              (calculate_threads d.stitches nRows lm grid >>= _)
            cases calculate_threads d.stitches nRows lm grid with
            | error e3 => rfl
            | ok p => rfl]
    rw [hlinks]
    rfl

theorem claim5_witness :
    links_to_hash w5grid 1 1 false [w5link] =
      .error (.PosOutsideOfFabric 5 1) :=
  (claim5_link_validation.1 w5grid 1 1 false [w5link]
      (.PosOutsideOfFabric 5 1)).mpr
    ⟨0, w5link, rfl, by decide, fun m hm => absurd hm (by omega)⟩


/-! ### C2: link swap symmetry -/


theorem absDiff_comm (a b : ℕ) : absDiff a b = absDiff b a := by
  unfold absDiff
  by_cases h : a ≤ b
  · rw [if_pos h]
    by_cases h2 : b ≤ a
    · rw [if_pos h2]; omega
    · rw [if_neg h2]
  · rw [if_neg h, if_pos (by omega)]

theorem cmp_pos_eq_iff (a b : ℕ × ℕ) :
    compare_position_thread_order a b = .eq ↔ a = b := by
  unfold compare_position_thread_order
  rcases h : compare a.2 b.2 with _ | _ | _
  · simp only [Ordering.then]
    constructor
    · intro hc; cases hc
    · rintro rfl
      rw [Nat.compare_eq_lt] at h
      omega
  · have hy : a.2 = b.2 := Nat.compare_eq_eq.mp h
    simp only [Ordering.then]
    by_cases hpar : a.2 % 2 = 0
    · rw [if_pos hpar, Nat.compare_eq_eq]
      constructor
      · intro hx
        exact Prod.ext (hx.symm) hy
      · rintro rfl; rfl
    · rw [if_neg hpar, Nat.compare_eq_eq]
      constructor
      · intro hx
        exact Prod.ext hx hy
      · rintro rfl; rfl
  · simp only [Ordering.then]
    constructor
    · intro hc; cases hc
    · rintro rfl
      rw [Nat.compare_eq_gt] at h
      omega

theorem cmp_pos_swap_gt (a b : ℕ × ℕ) :
    compare_position_thread_order a b = .gt ↔
      compare_position_thread_order b a = .lt := by
  unfold compare_position_thread_order
  rcases h : compare a.2 b.2 with _ | _ | _
  · have h2 : compare b.2 a.2 = .gt := by
      rw [Nat.compare_eq_gt]; rw [Nat.compare_eq_lt] at h; omega
    rw [h2]
    simp [Ordering.then]
  · have hy : a.2 = b.2 := Nat.compare_eq_eq.mp h
    have h2 : compare b.2 a.2 = .eq := by rw [Nat.compare_eq_eq]; omega
    rw [h2]
    simp only [Ordering.then]
    rw [hy]
    by_cases hpar : b.2 % 2 = 0
    · rw [if_pos hpar, if_pos hpar, Nat.compare_eq_gt, Nat.compare_eq_lt]
    · rw [if_neg hpar, if_neg hpar, Nat.compare_eq_gt, Nat.compare_eq_lt]
  · have h2 : compare b.2 a.2 = .lt := by
      rw [Nat.compare_eq_lt]; rw [Nat.compare_eq_gt] at h; omega
    rw [h2]
    simp [Ordering.then]



theorem linkErrSpec_none_iff (grid : List (Option Stitch)) (ns nr : ℕ)
    (allow : Bool) (l : Link) :
    linkErrSpec grid ns nr allow l = none ↔
      ¬badPos grid ns nr l.source ∧ ¬badPos grid ns nr l.dest
      ∧ ¬(allow = false ∧ (MAX_STITCH_GAP < absDiff l.source.1 l.dest.1
          ∨ MAX_ROW_GAP < absDiff l.source.2 l.dest.2))
      ∧ look_up_link_position grid ns nr l.source
          = look_up_link_position grid ns nr l.dest := by
  unfold linkErrSpec
  by_cases hs : badPos grid ns nr l.source
  · rw [if_pos hs]; simp [hs]
  · rw [if_neg hs]
    by_cases hd : badPos grid ns nr l.dest
    · rw [if_pos hd]; simp [hs, hd]
    · rw [if_neg hd]
      by_cases hgap : allow = false ∧ (MAX_STITCH_GAP < absDiff l.source.1 l.dest.1
          ∨ MAX_ROW_GAP < absDiff l.source.2 l.dest.2)
      · rw [if_pos hgap]; simp [hs, hd, hgap]
      · rw [if_neg hgap]
        by_cases hcol : look_up_link_position grid ns nr l.source
            ≠ look_up_link_position grid ns nr l.dest
        · rw [if_pos hcol]; simp [hs, hd, hgap, hcol]
        · rw [if_neg hcol]
          simp only [not_not] at hcol
          simp [hs, hd, hgap, hcol]

theorem processLink_swap_ok (grid : List (Option Stitch)) (ns nr : ℕ)
    (allow : Bool) (m m2 : LinkMap) (a b : ℕ × ℕ)
    (h : processLink grid ns nr allow m ⟨a, b⟩ = .ok m2) :
    processLink grid ns nr allow m ⟨b, a⟩ = .ok m2 := by
  rw [processLink_eq] at h ⊢
  cases hspec : linkErrSpec grid ns nr allow ⟨a, b⟩ with
  | some e => rw [hspec] at h; cases h
  | none =>
      rw [hspec] at h
      have hswap : linkErrSpec grid ns nr allow ⟨b, a⟩ = none := by
        rw [linkErrSpec_none_iff] at hspec ⊢
        obtain ⟨h1, h2, h3, h4⟩ := hspec
        refine ⟨h2, h1, ?_, h4.symm⟩
        rw [show absDiff b.1 a.1 = absDiff a.1 b.1 from absDiff_comm b.1 a.1,
          show absDiff b.2 a.2 = absDiff a.2 b.2 from absDiff_comm b.2 a.2]
        exact h3
      rw [hswap]
      rcases htri : compare_position_thread_order a b with _ | _ | _
      · rw [if_neg (by rw [htri]; simp)] at h
        rw [if_pos
          (show compare_position_thread_order b a = .gt from
            (cmp_pos_swap_gt b a).mpr htri)]
        exact h
      · have hab : a = b := (cmp_pos_eq_iff a b).mp htri
        subst hab
        exact h
      · rw [if_pos htri] at h
        rw [if_neg (by
          rw [(cmp_pos_swap_gt a b).mp htri]
          simp)]
        exact h



theorem foldlM_links_swap (grid : List (Option Stitch)) (ns nr : ℕ)
    (allow : Bool) :
    ∀ (links : List Link) (i : ℕ) (a b : ℕ × ℕ) (m lm : LinkMap),
      links.get? i = some ⟨a, b⟩ →
      links.foldlM (processLink grid ns nr allow) m = .ok lm →
      (links.set i ⟨b, a⟩).foldlM (processLink grid ns nr allow) m = .ok lm := by
  intro links
  induction links with
  | nil => intro i a b m lm hget; cases hget
  | cons l rest ih =>
      intro i a b m lm hget hfold
      have hfold2 : (processLink grid ns nr allow m l >>= fun m2 =>
          rest.foldlM (processLink grid ns nr allow) m2) = .ok lm := hfold
      cases hstep : processLink grid ns nr allow m l with
      | error e =>
          rw [hstep] at hfold2
          cases hfold2
      | ok m2 =>
          rw [hstep] at hfold2
          replace hfold2 : rest.foldlM (processLink grid ns nr allow) m2 =
              .ok lm := hfold2
          cases i with
          | zero =>
              have hl : l = ⟨a, b⟩ := Option.some.inj hget
              subst hl
              rw [show (Link.mk a b :: rest).set 0 ⟨b, a⟩ =
                ⟨b, a⟩ :: rest from rfl]
              rw [show (Link.mk b a :: rest).foldlM
                  (processLink grid ns nr allow) m =
                processLink grid ns nr allow m ⟨b, a⟩ >>= fun m3 =>
                  rest.foldlM (processLink grid ns nr allow) m3 from rfl]
              rw [processLink_swap_ok grid ns nr allow m m2 a b hstep]
              exact hfold2
          | succ i2 =>
              rw [show (l :: rest).set (i2 + 1) ⟨b, a⟩ =
                l :: rest.set i2 ⟨b, a⟩ from rfl]
              rw [show (l :: rest.set i2 ⟨b, a⟩).foldlM
                  (processLink grid ns nr allow) m =
                processLink grid ns nr allow m l >>= fun m3 =>
                  (rest.set i2 ⟨b, a⟩).foldlM
                    (processLink grid ns nr allow) m3 from rfl]
              rw [hstep]
              exact ih i2 a b m2 lm hget hfold2



/-- C2: replacing any link by its source↔dest swap leaves a successful
`Fabric::new` result unchanged: same `n_stitches`, `n_rows`, stitch grid
and thread list (full `Fabric` equality). -/
theorem claim2_swap_link (img : ImageData) (d : Dimensions) (i : ℕ)
    (a b : ℕ × ℕ) (f : Fabric)
    (hget : d.links.get? i = some ⟨a, b⟩)
    (h : Fabric.new img d = some (.ok f)) :
    Fabric.new img { d with links := d.links.set i ⟨b, a⟩ } = some (.ok f) := by
  unfold Fabric.new at h ⊢
  obtain ⟨⟨grid, nRows⟩, hres, hrest⟩ := Option.map_eq_some'.mp h
  replace hrest : ((do
      let lm ← links_to_hash grid d.stitches nRows d.allow_link_gaps d.links
      let (g2, ts) ← calculate_threads d.stitches nRows lm grid
      pure (Fabric.mk g2 d.stitches nRows ts)) : Except Err Fabric) =
      .ok f := hrest
  have hres2 : resample img { d with links := d.links.set i ⟨b, a⟩ } =
      some (grid, nRows) := hres
  rw [hres2, Option.map_some']
  show some ((do
      let lm ← links_to_hash grid d.stitches nRows d.allow_link_gaps
        (d.links.set i ⟨b, a⟩)
      let (g2, ts) ← calculate_threads d.stitches nRows lm grid
      pure (Fabric.mk g2 d.stitches nRows ts)) : Except Err Fabric) =
    some (.ok f)
  cases hlm : links_to_hash grid d.stitches nRows d.allow_link_gaps d.links with
  | error e =>
      rw [show ((do
          let lm ← links_to_hash grid d.stitches nRows d.allow_link_gaps d.links
          let (g2, ts) ← calculate_threads d.stitches nRows lm grid
          pure (Fabric.mk g2 d.stitches nRows ts)) : Except Err Fabric) =
          .error e from by rw [hlm]; rfl] at hrest
      cases hrest
  | ok lm =>
      rw [show ((do
          let lm ← links_to_hash grid d.stitches nRows d.allow_link_gaps d.links
          let (g2, ts) ← calculate_threads d.stitches nRows lm grid
          pure (Fabric.mk g2 d.stitches nRows ts)) : Except Err Fabric) =
          (do
          let (g2, ts) ← calculate_threads d.stitches nRows lm grid
          pure (Fabric.mk g2 d.stitches nRows ts)) from by rw [hlm]; rfl]
        at hrest
      have hlm2 : links_to_hash grid d.stitches nRows d.allow_link_gaps
          (d.links.set i ⟨b, a⟩) = .ok lm :=
        foldlM_links_swap grid d.stitches nRows d.allow_link_gaps d.links i
          a b lmEmpty lm hget hlm
      rw [show ((do
          let lm ← links_to_hash grid d.stitches nRows d.allow_link_gaps
            (d.links.set i ⟨b, a⟩)
          let (g2, ts) ← calculate_threads d.stitches nRows lm grid
          pure (Fabric.mk g2 d.stitches nRows ts)) : Except Err Fabric) =
          (do
          let (g2, ts) ← calculate_threads d.stitches nRows lm grid
          pure (Fabric.mk g2 d.stitches nRows ts)) from by rw [hlm2]; rfl]
      rw [hrest]



theorem claim2_witness :
    w2dims.links.get? 0 = some ⟨(1, 1), (2, 1)⟩
    ∧ Fabric.new w2img w2dims = some (.ok w2fab)
    ∧ Fabric.new w2img { w2dims with links := w2dims.links.set 0 ⟨(2, 1), (1, 1)⟩ }
        = some (.ok w2fab) :=
  ⟨rfl, by decide,
   claim2_swap_link w2img w2dims 0 (1, 1) (2, 1) w2fab rfl (by decide)⟩




theorem perm_eraseIdx_concat {α : Type} :
    ∀ (l : List α) (i : ℕ) (t : α), l.get? i = some t →
      l.Perm (l.eraseIdx i ++ [t]) := by
  intro l
  induction l with
  | nil => intro i t h; cases h
  | cons a rest ih =>
      intro i t h
      cases i with
      | zero =>
          have : a = t := Option.some.inj h
          subst this
          rw [List.eraseIdx_zero, List.tail_cons]
          exact (List.perm_append_singleton a rest).symm
      | succ i2 =>
          rw [List.eraseIdx_cons_succ, List.cons_append]
          exact (ih i2 t h).cons a

theorem getD_set_eq_of_lt {α : Type} [Inhabited α] :
    ∀ (l : List α) (i : ℕ) (a d : α), i < l.length →
      (l.set i a).getD i d = a := by
  intro l
  induction l with
  | nil => intro i a d h; simp at h
  | cons b rest ih =>
      intro i a d h
      cases i with
      | zero => rfl
      | succ i2 => exact ih i2 a d (by simpa using h)

theorem getD_set_ne {α : Type} [Inhabited α] :
    ∀ (l : List α) (i j : ℕ) (a d : α), i ≠ j →
      (l.set i a).getD j d = l.getD j d := by
  intro l
  induction l with
  | nil => intro i j a d h; rfl
  | cons b rest ih =>
      intro i j a d h
      cases i with
      | zero =>
          cases j with
          | zero => exact absurd rfl h
          | succ j2 => rfl
      | succ i2 =>
          cases j with
          | zero => rfl
          | succ j2 => exact ih i2 j2 a d (by omega)

theorem countP_getD_range {α : Type} [Inhabited α] (pr : α → Bool) :
    ∀ (g : List α) (d : α),
      ((List.range g.length).filter fun j => pr (g.getD j d)).length =
        (g.filter fun a => pr a).length := by
  intro g
  induction g with
  | nil => intro d; rfl
  | cons a rest ih =>
      intro d
      rw [show (a :: rest).length = rest.length + 1 from rfl,
        List.range_succ_eq_map]
      rw [List.filter_cons]
      rw [show ((a :: rest).getD 0 d) = a from rfl]
      by_cases hp : pr a
      · rw [if_pos (by simpa using hp)]
        simp only [List.length_cons]
        rw [List.filter_map, List.length_map]
        have : (List.filter ((fun j => pr ((a :: rest).getD j d)) ∘
            fun n => n + 1) (List.range rest.length)).length =
          (List.filter (fun j => pr (rest.getD j d)) (List.range rest.length)).length := by
          congr 1
        rw [this, ih d]
        rw [List.filter_cons, if_pos (by simpa using hp)]
        rfl
      · rw [if_neg (by simpa using hp)]
        rw [List.filter_map, List.length_map]
        have : (List.filter ((fun j => pr ((a :: rest).getD j d)) ∘
            fun n => n + 1) (List.range rest.length)).length =
          (List.filter (fun j => pr (rest.getD j d)) (List.range rest.length)).length := by
          congr 1
        rw [this, ih d]
        rw [List.filter_cons, if_neg (by simpa using hp)]



theorem knitOrder_bounds (ns nr : ℕ) :
    ∀ p ∈ knitOrder ns nr, p.1 < ns ∧ p.2 < nr := by
  intro p hp
  unfold knitOrder at hp
  rcases List.mem_flatMap.mp hp with ⟨y, hy, hpy⟩
  have hy2 : y < nr := by
    have := List.mem_reverse.mp hy
    exact List.mem_range.mp this
  rcases List.mem_map.mp hpy with ⟨x, hx, hpx⟩
  have hx2 : x < ns := List.mem_range.mp hx
  by_cases hpar : (nr - 1 - y) % 2 = 0
  · rw [if_pos hpar] at hpx
    rw [← hpx]
    exact ⟨by omega, hy2⟩
  · rw [if_neg hpar] at hpx
    rw [← hpx]
    exact ⟨hx2, hy2⟩

theorem knitOrder_rows_mono (ns nr : ℕ) :
    (knitOrder ns nr).Pairwise fun p q => q.2 ≤ p.2 := by
  unfold knitOrder
  have hrows : ((List.range nr).reverse).Pairwise fun a b => b ≤ a := by
    rw [List.pairwise_reverse]
    exact (List.pairwise_lt_range nr).imp fun h => Nat.le_of_lt h
  have hconst : ∀ (y : ℕ) (p : ℕ × ℕ),
      p ∈ (List.range ns).map (fun x =>
        if (nr - 1 - y) % 2 = 0 then (ns - 1 - x, y) else (x, y)) → p.2 = y := by
    intro y p hp
    rcases List.mem_map.mp hp with ⟨x, _, hpx⟩
    by_cases hpar : (nr - 1 - y) % 2 = 0
    · rw [if_pos hpar] at hpx; rw [← hpx]
    · rw [if_neg hpar] at hpx; rw [← hpx]
  generalize hL : (List.range nr).reverse = L at hrows ⊢
  clear hL
  induction L with
  | nil => simp
  | cons y rest ih =>
      rw [List.flatMap_cons, List.pairwise_append]
      refine ⟨List.pairwise_of_forall_mem_list fun a ha b hb => ?_,
        ih (List.Pairwise.sublist (List.sublist_cons_self y rest) hrows), ?_⟩
      · rw [hconst y a ha, hconst y b hb]
      · intro a ha b hb
        have ha2 : a.2 = y := hconst y a ha
        rcases List.mem_flatMap.mp hb with ⟨y2, hy2, hb2⟩
        have hb3 : b.2 = y2 := hconst y2 b hb2
        have : y2 ≤ y := (List.pairwise_cons.mp hrows).1 y2 hy2
        omega



theorem knitOrder_mem (ns nr x y : ℕ) (hx : x < ns) (hy : y < nr) :
    (x, y) ∈ knitOrder ns nr := by
  unfold knitOrder
  apply List.mem_flatMap.mpr
  refine ⟨y, List.mem_reverse.mpr (List.mem_range.mpr hy), ?_⟩
  apply List.mem_map.mpr
  by_cases hpar : (nr - 1 - y) % 2 = 0
  · exact ⟨ns - 1 - x, List.mem_range.mpr (by omega), by rw [if_pos hpar]; congr 1; omega⟩
  · exact ⟨x, List.mem_range.mpr hx, by rw [if_neg hpar]⟩

theorem knitOrder_length (ns nr : ℕ) : (knitOrder ns nr).length = nr * ns := by
  unfold knitOrder
  rw [List.length_flatMap]
  have key : ∀ L : List ℕ, (L.map (List.length ∘ fun y => (List.range ns).map fun x =>
      if (nr - 1 - y) % 2 = 0 then (ns - 1 - x, y) else (x, y))).sum =
      L.length * ns := by
    intro L
    induction L with
    | nil => simp
    | cons a t ih =>
        simp only [List.map_cons, List.sum_cons, ih, Function.comp,
          List.length_map, List.length_range, List.length_cons]
        ring
  rw [key]
  simp

theorem knitOrder_posIdx_perm (ns nr : ℕ) :
    ((knitOrder ns nr).map (posIdx ns)).Perm (List.range (nr * ns)) := by
  have hsub : List.range (nr * ns) ⊆ (knitOrder ns nr).map (posIdx ns) := by
    intro j hj
    have hj2 : j < nr * ns := List.mem_range.mp hj
    have hns : 0 < ns := by
      rcases Nat.eq_zero_or_pos ns with h | h
      · subst h; omega
      · exact h
    apply List.mem_map.mpr
    refine ⟨(j % ns, j / ns), ?_, ?_⟩
    · exact knitOrder_mem ns nr _ _ (Nat.mod_lt _ hns)
        (by rw [Nat.div_lt_iff_lt_mul hns]; omega)
    · show j % ns + j / ns * ns = j
      rw [Nat.mul_comm]
      exact Nat.mod_add_div j ns
  have hsp : (List.range (nr * ns)).Subperm ((knitOrder ns nr).map (posIdx ns)) :=
    List.subperm_of_subset (List.nodup_range _) hsub
  have hlen : ((knitOrder ns nr).map (posIdx ns)).length ≤
      (List.range (nr * ns)).length := by
    rw [List.length_map, knitOrder_length, List.length_range]
  exact (hsp.perm_of_length_le hlen).symm

theorem order_filter_presence (ns nr : ℕ) (grid : List (Option Stitch))
    (h : grid.length = nr * ns) :
    ((knitOrder ns nr).filter fun p =>
        (grid.getD (posIdx ns p) none).isSome).length = presentCount grid := by
  have h1 : ((knitOrder ns nr).filter fun p =>
      (grid.getD (posIdx ns p) none).isSome) =
      ((knitOrder ns nr).filter fun p =>
        ((fun j => (grid.getD j none).isSome) ∘ posIdx ns) p) := rfl
  rw [h1, ← List.length_map _ (posIdx ns), ← List.filter_map]
  have h2 := (knitOrder_posIdx_perm ns nr).filter
    fun j => (grid.getD j none).isSome
  rw [h2.length_eq, ← h, countP_getD_range]
  rfl



theorem getD_eq_some_lt {α : Type} (l : List (Option α)) (i : ℕ) (v : α)
    (h : l.getD i none = some v) : i < l.length := by
  by_contra hc
  rw [List.getD_eq_default] at h
  · exact Option.noConfusion h
  · omega

theorem findThreadAt_spec (tx ty : ℕ) :
    ∀ (ts : List Thread) (i : ℕ), findThreadAt ts tx ty = some i →
    ∃ t, ts.get? i = some t ∧ t.x = tx ∧ t.y = ty := by
  intro ts
  induction ts with
  | nil => intro i h; exact Option.noConfusion h
  | cons t rest ih =>
      intro i h
      unfold findThreadAt at h
      by_cases hc : t.x = tx ∧ t.y = ty
      · rw [if_pos hc] at h
        cases h
        exact ⟨t, rfl, hc⟩
      · rw [if_neg hc] at h
        match hrec : findThreadAt rest tx ty with
        | none => rw [hrec] at h; exact Option.noConfusion h
        | some j =>
            rw [hrec] at h
            cases h
            obtain ⟨u, hu, hux, huy⟩ := ih j hrec
            exact ⟨u, hu, hux, huy⟩

theorem fnbAux_lt (c : Color) (x y : ℕ) :
    ∀ (l : List Thread) (i : ℕ), fnbAux c x y l = some i → i < l.length := by
  intro l
  induction l with
  | nil => intro i h; exact Option.noConfusion h
  | cons t rest ih =>
      intro i h
      unfold fnbAux at h
      split at h
      · exact Option.noConfusion h
      · split at h
        · have := ih i h; simp [List.length_cons]; omega
        · split at h
          · cases h; simp
          · have := ih i h; simp [List.length_cons]; omega

theorem fnbAux_spec (c : Color) (x y : ℕ) :
    ∀ (l : List Thread) (i : ℕ), fnbAux c x y l = some i →
    ∃ t, l.reverse.get? i = some t ∧ t.color = c := by
  intro l
  induction l with
  | nil => intro i h; exact Option.noConfusion h
  | cons t rest ih =>
      intro i h
      unfold fnbAux at h
      split at h
      · exact Option.noConfusion h
      · have hstep : ∀ j, fnbAux c x y rest = some j →
            ∃ u, (t :: rest).reverse.get? j = some u ∧ u.color = c := by
          intro j hj
          obtain ⟨u, hu, huc⟩ := ih j hj
          refine ⟨u, ?_, huc⟩
          have hjlt : j < rest.length := fnbAux_lt c x y rest j hj
          rw [List.reverse_cons, List.get?_append (by simpa using hjlt)]
          exact hu
        split at h
        · exact hstep i h
        · split at h
          · rename_i hcol hgap
            cases h
            refine ⟨t, ?_, not_not.mp hcol⟩
            rw [List.reverse_cons,
              List.get?_append_right (by simp : rest.reverse.length ≤ rest.length)]
            simp
          · exact hstep i h

theorem fnbAux_color (c : Color) (x y : ℕ) (l : List Thread) (i : ℕ)
    (h : fnbAux c x y l = some i) :
    ∃ t, l.reverse.get? i = some t ∧ t.color = c := fnbAux_spec c x y l i h



theorem wsub_eq (a b : ℕ) (hba : b ≤ a) (ha : a < 65536) : wsub a b = a - b := by
  unfold wsub
  have h1 : a + 65536 - b = (a - b) + 65536 := by omega
  rw [h1, Nat.add_mod_right, Nat.mod_eq_of_lt (by omega)]

theorem fnbFullAux_none (c : Color) (x y : ℕ) :
    ∀ l : List Thread, (∀ t ∈ l, ¬(t.y - y ≤ MAX_ROW_GAP)) →
    fnbFullAux c x y l = none := by
  intro l
  induction l with
  | nil => intro _; rfl
  | cons t rest ih =>
      intro h
      unfold fnbFullAux
      rw [if_neg, ih fun u hu => h u (List.mem_cons_of_mem t hu)]
      intro hc
      exact h t (List.mem_cons_self t rest) hc.2.1

theorem fnb_eq_full_aux (c : Color) (x y : ℕ) :
    ∀ l : List Thread, (∀ t ∈ l, y ≤ t.y ∧ t.y < 65536) →
    l.Pairwise (fun u v => u.y ≤ v.y) →
    fnbAux c x y l = fnbFullAux c x y l := by
  intro l
  induction l with
  | nil => intro _ _; rfl
  | cons t rest ih =>
      intro hb hp
      have hty := hb t (List.mem_cons_self t rest)
      have hw : wsub t.y y = t.y - y := wsub_eq t.y y hty.1 hty.2
      unfold fnbAux fnbFullAux
      by_cases hbreak : MAX_ROW_GAP < wsub t.y y
      · have hb2 := hbreak
        rw [hw] at hb2
        have hnone : fnbFullAux c x y rest = none := by
          apply fnbFullAux_none
          intro u hu
          have h1 : t.y ≤ u.y := (List.pairwise_cons.mp hp).1 u hu
          omega
        have hnotc : ¬(y ≤ t.y ∧ t.y - y ≤ MAX_ROW_GAP ∧ t.color = c
            ∧ absDiff t.x x ≤ MAX_STITCH_GAP) :=
          fun hc2 => absurd hc2.2.1 (by omega)
        rw [if_pos hbreak, if_neg hnotc, hnone]
      · rw [if_neg hbreak]
        have hrec : fnbAux c x y rest = fnbFullAux c x y rest :=
          ih (fun u hu => hb u (List.mem_cons_of_mem t hu))
            (List.pairwise_cons.mp hp).2
        by_cases hcol : t.color ≠ c
        · rw [if_pos hcol, if_neg, hrec]
          intro hc
          exact hcol hc.2.2.1
        · rw [if_neg hcol]
          by_cases hgap : absDiff t.x x ≤ MAX_STITCH_GAP
          · rw [if_pos hgap, if_pos]
            rw [hw] at hbreak
            exact ⟨hty.1, by omega, not_not.mp hcol, hgap⟩
          · rw [if_neg hgap, if_neg, hrec]
            intro hc
            exact hgap hc.2.2.2

theorem fnb_eq_full (ts : List Thread) (c : Color) (x y : ℕ)
    (hb : ∀ t ∈ ts, y ≤ t.y ∧ t.y < 65536)
    (hp : ts.Pairwise fun u v => v.y ≤ u.y) :
    find_neighboring_thread ts c x y = findNeighborFull ts c x y := by
  unfold find_neighboring_thread findNeighborFull
  exact fnb_eq_full_aux c x y ts.reverse
    (fun u hu => hb u (List.mem_reverse.mp hu))
    (List.pairwise_reverse.mpr hp)

theorem mem_of_get_eraseIdx {α : Type} (l : List α) (i : ℕ) (t u : α)
    (hget : l.get? i = some t) (hu : u ∈ l) :
    u ∈ l.eraseIdx i ∨ u = t := by
  have hperm := perm_eraseIdx_concat l i t hget
  have := hperm.mem_iff.mp hu
  rcases List.mem_append.mp this with h | h
  · exact Or.inl h
  · exact Or.inr (List.mem_singleton.mp h)

theorem insertById_perm (t : Thread) :
    ∀ l : List Thread, (insertById t l).Perm (t :: l) := by
  intro l
  induction l with
  | nil => exact List.Perm.refl _
  | cons u rest ih =>
      unfold insertById
      by_cases hc : t.id ≤ u.id
      · rw [if_pos hc]
      · rw [if_neg hc]
        exact (ih.cons u).trans (List.Perm.swap t u rest)

theorem sortById_perm : ∀ l : List Thread, (sortById l).Perm l := by
  intro l
  induction l with
  | nil => exact List.Perm.refl _
  | cons t rest ih =>
      unfold sortById
      exact (insertById_perm t (sortById rest)).trans (ih.cons t)

theorem insertById_sorted (t : Thread) :
    ∀ l : List Thread, l.Pairwise (fun u v => u.id ≤ v.id) →
    (insertById t l).Pairwise (fun u v => u.id ≤ v.id) := by
  intro l
  induction l with
  | nil => intro _; simp [insertById]
  | cons u rest ih =>
      intro hp
      obtain ⟨hu, hrest⟩ := List.pairwise_cons.mp hp
      unfold insertById
      by_cases hc : t.id ≤ u.id
      · rw [if_pos hc]
        refine List.pairwise_cons.mpr ⟨?_, hp⟩
        intro v hv
        rcases List.mem_cons.mp hv with h | h
        · subst h; exact hc
        · exact le_trans hc (hu v h)
      · rw [if_neg hc]
        refine List.pairwise_cons.mpr ⟨?_, ih hrest⟩
        intro v hv
        have hv2 : v ∈ t :: rest := (insertById_perm t rest).mem_iff.mp hv
        rcases List.mem_cons.mp hv2 with h | h
        · subst h; omega
        · exact hu v h

theorem sortById_sorted : ∀ l : List Thread,
    (sortById l).Pairwise (fun u v => u.id ≤ v.id) := by
  intro l
  induction l with
  | nil => exact List.Pairwise.nil
  | cons t rest ih => exact insertById_sorted t (sortById rest) ih



theorem except_bind_eq_ok {ε α β : Type} {x : Except ε α} {f : α → Except ε β}
    {b : β} (h : x >>= f = .ok b) : ∃ a, x = .ok a ∧ f a = .ok b := by
  cases x with
  | ok a => exact ⟨a, rfl, h⟩
  | error e => exact Except.noConfusion h

theorem assignStitch_absent (ns nr : ℕ) (lm : LinkMap) (st : SweepState)
    (p : ℕ × ℕ) (h : st.grid.getD (p.1 + p.2 * ns) none = none) :
    assignStitch ns nr lm st p = .ok st := by
  unfold assignStitch
  rw [h]
  rfl

theorem find_thread_spec (ts : List Thread) (ns nr : ℕ) (lm : LinkMap)
    (c : Color) (x y : ℕ) (ts2 : List Thread)
    (h : find_thread ts ns nr lm c x y = .ok ts2) :
    ∃ li, find_thread_in_links ts ns nr lm x y = .ok li ∧
    ((∃ i, li.orElse (fun _ => find_neighboring_thread ts c x y) = some i
        ∧ ts2 = moveToEnd ts i x y)
     ∨ (li.orElse (fun _ => find_neighboring_thread ts c x y) = none
        ∧ ts2 = ts ++ [⟨x, y, ts.length, c, 0⟩])) := by
  unfold find_thread at h
  obtain ⟨li, hli, hbody⟩ := except_bind_eq_ok h
  refine ⟨li, hli, ?_⟩
  split at hbody
  · rename_i i heq
    cases hbody
    exact Or.inl ⟨i, heq, rfl⟩
  · rename_i heq
    cases hbody
    exact Or.inr ⟨heq, rfl⟩

theorem assignStitch_present (ns nr : ℕ) (lm : LinkMap) (st st' : SweepState)
    (p : ℕ × ℕ) (stitch : Stitch)
    (hcell : st.grid.getD (p.1 + p.2 * ns) none = some stitch)
    (h : assignStitch ns nr lm st p = .ok st') :
    ∃ ts2, find_thread st.threads ns nr lm stitch.color p.1 p.2 = .ok ts2 ∧
    ((ts2.getLast? = none ∧ st' = st)
     ∨ ∃ t, ts2.getLast? = some t
        ∧ st' = ⟨st.grid.set (p.1 + p.2 * ns) (some { stitch with thread := t.id }),
            ts2.dropLast ++ [{ t with stitch_count := t.stitch_count + 1 }]⟩) := by
  unfold assignStitch at h
  rw [hcell] at h
  obtain ⟨ts2, hts2, hbody⟩ := except_bind_eq_ok h
  refine ⟨ts2, hts2, ?_⟩
  split at hbody
  · rename_i heq
    cases hbody
    exact Or.inl ⟨heq, rfl⟩
  · rename_i t heq
    cases hbody
    exact Or.inr ⟨t, heq, rfl⟩


theorem cand_spec (ns nr : ℕ) (lm : LinkMap) (st : SweepState) (p : ℕ × ℕ)
    (stitch : Stitch) (li : Option ℕ)
    (hlm : LinkMapOk lm st.grid ns nr)
    (hT1 : ∀ t ∈ st.threads, colorAt st.grid (posIdx ns (t.x, t.y)) = some t.color)
    (hcell : st.grid.getD (p.1 + p.2 * ns) none = some stitch)
    (hp1 : p.1 < ns) (hp2 : p.2 < nr)
    (hli : find_thread_in_links st.threads ns nr lm p.1 p.2 = .ok li)
    (i : ℕ)
    (hcand : li.orElse
      (fun _ => find_neighboring_thread st.threads stitch.color p.1 p.2) = some i) :
    ∃ t0, st.threads.get? i = some t0 ∧ t0.color = stitch.color := by
  cases li with
  | some j =>
      replace hcand : (some j : Option ℕ) = some i := hcand
      cases hcand
      simp only [find_thread_in_links] at hli
      split at hli
      · rename_i dest hdest
        split at hli
        · rename_i i2 hfind
          cases hli
          obtain ⟨t0, hget, hx, hy⟩ := findThreadAt_spec _ _ _ _ hfind
          refine ⟨t0, hget, ?_⟩
          obtain ⟨hne, heqlook⟩ := hlm _ _ hdest
          simp only [look_up_link_position] at heqlook
          have e1 : ns - (ns - p.1) = p.1 := by omega
          have e2 : nr - (nr - p.2) = p.2 := by omega
          rw [e1, e2, hcell] at heqlook
          have hmem : t0 ∈ st.threads := List.get?_mem hget
          have hcol := hT1 t0 hmem
          unfold colorAt posIdx at hcol
          rw [hx, hy] at hcol
          rw [hcol] at heqlook
          exact (Option.some.inj heqlook).symm
        · exact Except.noConfusion hli
      · rename_i hnone
        cases hli
  | none =>
      replace hcand :
          find_neighboring_thread st.threads stitch.color p.1 p.2 = some i := hcand
      unfold find_neighboring_thread at hcand
      obtain ⟨t0, hget, hcol⟩ := fnbAux_spec _ _ _ _ _ hcand
      rw [List.reverse_reverse] at hget
      exact ⟨t0, hget, hcol⟩

theorem sumCounts_append (a b : List Thread) :
    sumCounts (a ++ b) = sumCounts a + sumCounts b := by
  simp [sumCounts]

theorem sumCounts_perm (a b : List Thread) (h : a.Perm b) :
    sumCounts a = sumCounts b := by
  unfold sumCounts
  exact (h.map (·.stitch_count)).sum_eq

theorem assignStitch_spec (ns nr : ℕ) (lm : LinkMap) (st st' : SweepState)
    (p : ℕ × ℕ)
    (hlm : LinkMapOk lm st.grid ns nr)
    (hp1 : p.1 < ns) (hp2 : p.2 < nr)
    (hTI : ThreadInv ns nr st.grid st.threads)
    (hyb : ∀ t ∈ st.threads, p.2 ≤ t.y)
    (h : assignStitch ns nr lm st p = .ok st') :
    st'.grid.length = st.grid.length
    ∧ (∀ j, colorAt st'.grid j = colorAt st.grid j)
    ∧ (∀ j, j ≠ posIdx ns p → st'.grid.getD j none = st.grid.getD j none)
    ∧ ThreadInv ns nr st'.grid st'.threads
    ∧ (∀ t ∈ st'.threads, p.2 ≤ t.y)
    ∧ (∀ i c, (∃ t ∈ st.threads, t.id = i ∧ t.color = c) →
        (∃ t ∈ st'.threads, t.id = i ∧ t.color = c))
    ∧ sumCounts st'.threads = sumCounts st.threads +
        (if (st.grid.getD (posIdx ns p) none).isSome then 1 else 0)
    ∧ (∀ s', st'.grid.getD (posIdx ns p) none = some s' →
        ∃ t ∈ st'.threads, t.id = s'.thread ∧ t.color = s'.color) := by
  obtain ⟨hT1, hT2, hT3, hT4, hT5⟩ := hTI
  cases hcell : st.grid.getD (p.1 + p.2 * ns) none with
  | none =>
      rw [assignStitch_absent ns nr lm st p hcell] at h
      cases h
      have hcell' : st.grid.getD (posIdx ns p) none = none := hcell
      refine ⟨rfl, fun j => rfl, fun j _ => rfl, ⟨hT1, hT2, hT3, hT4, hT5⟩,
        hyb, fun i c hic => hic, ?_, ?_⟩
      · rw [hcell']
        simp
      · intro s' hs'
        rw [hcell'] at hs'
        exact Option.noConfusion hs'
  | some stitch =>
      have hcell' : st.grid.getD (posIdx ns p) none = some stitch := hcell
      have hplt : p.1 + p.2 * ns < st.grid.length := getD_eq_some_lt _ _ _ hcell
      obtain ⟨ts2, hft, hrest⟩ := assignStitch_present ns nr lm st st' p stitch hcell h
      obtain ⟨li, hli, hcases⟩ := find_thread_spec _ _ _ _ _ _ _ _ hft
      rcases hcases with ⟨i, hcand, hts2⟩ | ⟨hcand, hts2⟩
      · -- an existing thread is moved to the tail
        obtain ⟨t0, hget, hcol⟩ :=
          cand_spec ns nr lm st p stitch li hlm hT1 hcell hp1 hp2 hli i hcand
        have hmove : moveToEnd st.threads i p.1 p.2 =
            st.threads.eraseIdx i ++ [{ t0 with x := p.1, y := p.2 }] := by
          unfold moveToEnd
          rw [hget]
        rw [hmove] at hts2
        rcases hrest with ⟨hnone, _⟩ | ⟨t, hlast, hst'⟩
        · rw [hts2, List.getLast?_concat] at hnone
          exact Option.noConfusion hnone
        · rw [hts2, List.getLast?_concat] at hlast
          replace hlast := (Option.some.inj hlast).symm
          subst hlast
          rw [hts2, List.dropLast_concat] at hst'
          have hilt : i < st.threads.length := by
            by_contra hc
            rw [List.get?_eq_none.mpr (by omega)] at hget
            exact Option.noConfusion hget
          have hperm : st.threads.Perm (st.threads.eraseIdx i ++ [t0]) :=
            perm_eraseIdx_concat _ _ _ hget
          have hmem_t0 : t0 ∈ st.threads := List.get?_mem hget
          have hsubA : ∀ u ∈ st.threads.eraseIdx i, u ∈ st.threads :=
            fun u hu => (List.eraseIdx_sublist st.threads i).subset hu
          have hthreads : st'.threads = st.threads.eraseIdx i ++
              [⟨p.1, p.2, t0.id, t0.color, t0.stitch_count + 1⟩] := by
            rw [hst']
          have hgrid : st'.grid =
              st.grid.set (p.1 + p.2 * ns) (some { stitch with thread := t0.id }) := by
            rw [hst']
          have hlen : st'.grid.length = st.grid.length := by
            rw [hgrid, List.length_set]
          have hcolpres : ∀ j, colorAt st'.grid j = colorAt st.grid j := by
            intro j
            by_cases hj : j = p.1 + p.2 * ns
            · subst hj
              unfold colorAt
              rw [hgrid, getD_set_eq_of_lt _ _ _ _ hplt, hcell]
              rfl
            · unfold colorAt
              rw [hgrid,
                getD_set_ne st.grid (p.1 + p.2 * ns) j _ none (fun hc => hj hc.symm)]
          have hoff : ∀ j, j ≠ posIdx ns p →
              st'.grid.getD j none = st.grid.getD j none := by
            intro j hj
            rw [hgrid]
            exact getD_set_ne st.grid (p.1 + p.2 * ns) j _ none
              (fun hc => hj hc.symm)
          have hmember : ∀ u ∈ st'.threads,
              u ∈ st.threads.eraseIdx i ∨
              u = ⟨p.1, p.2, t0.id, t0.color, t0.stitch_count + 1⟩ := by
            intro u hu
            rw [hthreads] at hu
            rcases List.mem_append.mp hu with h2 | h2
            · exact Or.inl h2
            · exact Or.inr (List.mem_singleton.mp h2)
          refine ⟨hlen, hcolpres, hoff, ⟨?_, ?_, ?_, ?_, ?_⟩, ?_, ?_, ?_, ?_⟩
          · -- colors of threads
            intro u hu
            rw [hcolpres]
            rcases hmember u hu with h2 | h2
            · exact hT1 u (hsubA u h2)
            · subst h2
              show colorAt st.grid (posIdx ns (p.1, p.2)) = some t0.color
              have : posIdx ns (p.1, p.2) = posIdx ns p := by unfold posIdx; rfl
              rw [this, hcol]
              unfold colorAt
              rw [hcell']
              rfl
          · -- ids perm
            rw [hthreads]
            have h2 : (st.threads.eraseIdx i ++
                [(⟨p.1, p.2, t0.id, t0.color, t0.stitch_count + 1⟩ : Thread)]).map (·.id) =
                (st.threads.eraseIdx i ++ [t0]).map (·.id) := by
              simp
            rw [h2]
            have h3 : (st.threads.eraseIdx i ++
                [(⟨p.1, p.2, t0.id, t0.color, t0.stitch_count + 1⟩ : Thread)]).length =
                st.threads.length := by
              rw [List.length_append, List.length_eraseIdx, if_pos hilt]
              simp only [List.length_singleton]
              omega
            rw [h3]
            exact ((hperm.map (·.id)).symm).trans hT2
          · -- counts positive
            intro u hu
            rcases hmember u hu with h2 | h2
            · exact hT3 u (hsubA u h2)
            · subst h2; exact Nat.succ_le_succ (Nat.zero_le _)
          · -- rows in range
            intro u hu
            rcases hmember u hu with h2 | h2
            · exact hT4 u (hsubA u h2)
            · subst h2; exact hp2
          · -- recency order
            rw [hthreads]
            refine List.pairwise_append.mpr ⟨hT5.sublist (List.eraseIdx_sublist _ _),
              List.pairwise_singleton _ _, ?_⟩
            intro u hu v hv
            rw [List.mem_singleton.mp hv]
            exact hyb u (hsubA u hu)
          · -- y lower bound
            intro u hu
            rcases hmember u hu with h2 | h2
            · exact hyb u (hsubA u h2)
            · subst h2; exact le_refl _
          · -- id/color pair preservation
            intro iD c hic
            obtain ⟨t, htmem, htid, htcol⟩ := hic
            rcases mem_of_get_eraseIdx st.threads i t0 t hget htmem with h2 | h2
            · exact ⟨t, by rw [hthreads]; exact List.mem_append_left _ h2, htid, htcol⟩
            · refine ⟨⟨p.1, p.2, t0.id, t0.color, t0.stitch_count + 1⟩,
                by rw [hthreads];
                   exact List.mem_append_right _ (List.mem_singleton.mpr rfl), ?_, ?_⟩
              · show t0.id = iD
                rw [← h2]
                exact htid
              · show t0.color = c
                rw [← h2]
                exact htcol
          · -- stitch-count total
            rw [hthreads, hcell']
            simp only [Option.isSome_some, if_pos]
            rw [sumCounts_append, sumCounts_perm _ _ hperm, sumCounts_append]
            unfold sumCounts
            simp
            omega
          · -- the updated cell is assigned
            intro s' hs'
            have : st'.grid.getD (posIdx ns p) none =
                some { stitch with thread := t0.id } := by
              rw [hgrid]
              exact getD_set_eq_of_lt _ _ _ _ hplt
            rw [this] at hs'
            replace hs' := (Option.some.inj hs').symm
            subst hs'
            exact ⟨⟨p.1, p.2, t0.id, t0.color, t0.stitch_count + 1⟩,
              by rw [hthreads]; exact List.mem_append_right _ (List.mem_singleton.mpr rfl),
              rfl, hcol⟩
      · -- a fresh thread is created
        rcases hrest with ⟨hnone, _⟩ | ⟨t, hlast, hst'⟩
        · rw [hts2, List.getLast?_concat] at hnone
          exact Option.noConfusion hnone
        · rw [hts2, List.getLast?_concat] at hlast
          replace hlast := (Option.some.inj hlast).symm
          subst hlast
          rw [hts2, List.dropLast_concat] at hst'
          have hthreads : st'.threads = st.threads ++
              [⟨p.1, p.2, st.threads.length, stitch.color, 1⟩] := by
            rw [hst']
          have hgrid : st'.grid = st.grid.set (p.1 + p.2 * ns)
              (some { stitch with thread := st.threads.length }) := by
            rw [hst']
          have hlen : st'.grid.length = st.grid.length := by
            rw [hgrid, List.length_set]
          have hcolpres : ∀ j, colorAt st'.grid j = colorAt st.grid j := by
            intro j
            by_cases hj : j = p.1 + p.2 * ns
            · subst hj
              unfold colorAt
              rw [hgrid, getD_set_eq_of_lt _ _ _ _ hplt, hcell]
              rfl
            · unfold colorAt
              rw [hgrid,
                getD_set_ne st.grid (p.1 + p.2 * ns) j _ none (fun hc => hj hc.symm)]
          have hoff : ∀ j, j ≠ posIdx ns p →
              st'.grid.getD j none = st.grid.getD j none := by
            intro j hj
            rw [hgrid]
            exact getD_set_ne st.grid (p.1 + p.2 * ns) j _ none
              (fun hc => hj hc.symm)
          have hmember : ∀ u ∈ st'.threads,
              u ∈ st.threads ∨
              u = ⟨p.1, p.2, st.threads.length, stitch.color, 1⟩ := by
            intro u hu
            rw [hthreads] at hu
            rcases List.mem_append.mp hu with h2 | h2
            · exact Or.inl h2
            · exact Or.inr (List.mem_singleton.mp h2)
          refine ⟨hlen, hcolpres, hoff, ⟨?_, ?_, ?_, ?_, ?_⟩, ?_, ?_, ?_, ?_⟩
          · intro u hu
            rw [hcolpres]
            rcases hmember u hu with h2 | h2
            · exact hT1 u h2
            · subst h2
              show colorAt st.grid (posIdx ns (p.1, p.2)) = some stitch.color
              have : posIdx ns (p.1, p.2) = posIdx ns p := by unfold posIdx; rfl
              rw [this]
              unfold colorAt
              rw [hcell']
              rfl
          · rw [hthreads]
            have h2 : (st.threads ++
                [(⟨p.1, p.2, st.threads.length, stitch.color, 1⟩ : Thread)]).length =
                st.threads.length + 1 := by
              simp
            rw [h2, List.map_append]
            have h3 : List.range (st.threads.length + 1) =
                List.range st.threads.length ++ [st.threads.length] := by
              exact List.range_succ st.threads.length
            rw [h3]
            have h4 : List.map (fun x => x.id)
                [(⟨p.1, p.2, st.threads.length, stitch.color, 1⟩ : Thread)] =
                [st.threads.length] := rfl
            rw [h4]
            exact hT2.append (List.Perm.refl _)
          · intro u hu
            rcases hmember u hu with h2 | h2
            · exact hT3 u h2
            · subst h2; exact Nat.succ_le_succ (Nat.zero_le _)
          · intro u hu
            rcases hmember u hu with h2 | h2
            · exact hT4 u h2
            · subst h2; exact hp2
          · rw [hthreads]
            refine List.pairwise_append.mpr ⟨hT5, List.pairwise_singleton _ _, ?_⟩
            intro u hu v hv
            rw [List.mem_singleton.mp hv]
            exact hyb u hu
          · intro u hu
            rcases hmember u hu with h2 | h2
            · exact hyb u h2
            · subst h2; exact le_refl _
          · intro iD c hic
            obtain ⟨t, htmem, htid, htcol⟩ := hic
            exact ⟨t, by rw [hthreads]; exact List.mem_append_left _ htmem, htid, htcol⟩
          · rw [hthreads, hcell']
            simp only [Option.isSome_some, if_pos]
            rw [sumCounts_append]
            unfold sumCounts
            simp
          · intro s' hs'
            have : st'.grid.getD (posIdx ns p) none =
                some { stitch with thread := st.threads.length } := by
              rw [hgrid]
              exact getD_set_eq_of_lt _ _ _ _ hplt
            rw [this] at hs'
            replace hs' := (Option.some.inj hs').symm
            subst hs'
            exact ⟨⟨p.1, p.2, st.threads.length, stitch.color, 1⟩,
              by rw [hthreads]; exact List.mem_append_right _ (List.mem_singleton.mpr rfl),
              rfl, rfl⟩

theorem presence_of_colorAt (g1 g2 : List (Option Stitch)) (j : ℕ)
    (h : colorAt g1 j = colorAt g2 j) :
    (g1.getD j none).isSome = (g2.getD j none).isSome := by
  unfold colorAt at h
  cases h1 : g1.getD j none with
  | none =>
      cases h2 : g2.getD j none with
      | none => rfl
      | some s => rw [h1, h2] at h; exact Option.noConfusion h
  | some s =>
      cases h2 : g2.getD j none with
      | none => rw [h1, h2] at h; exact Option.noConfusion h
      | some s2 => rfl

theorem presentCount_congr (g1 g2 : List (Option Stitch))
    (hlen : g1.length = g2.length)
    (hpt : ∀ j, (g1.getD j none).isSome = (g2.getD j none).isSome) :
    presentCount g1 = presentCount g2 := by
  unfold presentCount
  rw [← countP_getD_range (·.isSome) g1 none, ← countP_getD_range (·.isSome) g2 none,
    hlen]
  congr 1
  apply List.filter_congr
  intro j _
  rw [hpt j]

theorem LinkMapOk_congr (lm : LinkMap) (g1 g2 : List (Option Stitch)) (ns nr : ℕ)
    (hpt : ∀ j, colorAt g1 j = colorAt g2 j)
    (h : LinkMapOk lm g2 ns nr) : LinkMapOk lm g1 ns nr := by
  intro k d2 hk
  obtain ⟨h1, h2⟩ := h k d2 hk
  have e : ∀ (g : List (Option Stitch)) (q : ℕ × ℕ),
      look_up_link_position g ns nr q = colorAt g (ns - q.1 + (nr - q.2) * ns) :=
    fun _ _ => rfl
  rw [e, e, hpt, hpt]
  exact ⟨h1, h2⟩

theorem sweepAux_inv (ns nr : ℕ) (lm : LinkMap) (tail : List (ℕ × ℕ)) (N : ℕ) :
    ∀ (l : List (ℕ × ℕ)) (st st' : SweepState),
    sweepAux ns nr lm st l = .ok st' →
    (∀ p ∈ l, p.1 < ns ∧ p.2 < nr) →
    (l ++ tail).Pairwise (fun p q => q.2 ≤ p.2) →
    LinkMapOk lm st.grid ns nr →
    st.grid.length = nr * ns →
    ThreadInv ns nr st.grid st.threads →
    (∀ t ∈ st.threads, ∀ q ∈ l ++ tail, q.2 ≤ t.y) →
    sumCounts st.threads +
      (l.filter fun p => (st.grid.getD (posIdx ns p) none).isSome).length = N →
    AssignedInv ns st.grid st.threads (l ++ tail) →
    st'.grid.length = nr * ns
    ∧ (∀ j, colorAt st'.grid j = colorAt st.grid j)
    ∧ ThreadInv ns nr st'.grid st'.threads
    ∧ sumCounts st'.threads = N
    ∧ AssignedInv ns st'.grid st'.threads tail
    ∧ presentCount st'.grid = presentCount st.grid
    ∧ (∀ t ∈ st'.threads, ∀ q ∈ tail, q.2 ≤ t.y) := by
  intro l
  induction l with
  | nil =>
      intro st st' h _ _ _ hlen hTI hY hS hA
      replace h : Except.ok st = Except.ok st' := h
      cases h
      rw [List.nil_append] at hA
      refine ⟨hlen, fun j => rfl, hTI, ?_, hA, rfl, ?_⟩
      · rw [List.filter_nil] at hS
        simpa using hS
      · intro t ht q hq
        exact hY t ht q (by simpa using hq)
  | cons p rest ih =>
      intro st st' h hb hmono hlm hlen hTI hY hS hA
      rw [List.cons_append] at hmono hY hA
      simp only [sweepAux] at h
      obtain ⟨st1, hstep, hrec⟩ := except_bind_eq_ok h
      have hp := hb p (List.mem_cons_self p rest)
      have hyb : ∀ t ∈ st.threads, p.2 ≤ t.y :=
        fun t ht => hY t ht p (List.mem_cons_self p _)
      obtain ⟨c1, c2, c3, c4, c5, c6, c7, c8⟩ :=
        assignStitch_spec ns nr lm st st1 p hlm hp.1 hp.2 hTI hyb hstep
      have hpresj : ∀ j, (st1.grid.getD j none).isSome =
          (st.grid.getD j none).isSome :=
        fun j => presence_of_colorAt _ _ j (c2 j)
      have hPC : presentCount st1.grid = presentCount st.grid :=
        presentCount_congr _ _ (by rw [c1]) hpresj
      have hb' : ∀ q ∈ rest, q.1 < ns ∧ q.2 < nr :=
        fun q hq => hb q (List.mem_cons_of_mem p hq)
      have hmono' := (List.pairwise_cons.mp hmono).2
      have hcross := (List.pairwise_cons.mp hmono).1
      have hfilter : (rest.filter fun q =>
          (st1.grid.getD (posIdx ns q) none).isSome) =
          (rest.filter fun q => (st.grid.getD (posIdx ns q) none).isSome) :=
        List.filter_congr fun q _ => by rw [hpresj (posIdx ns q)]
      have hS' : sumCounts st1.threads +
          (rest.filter fun q => (st1.grid.getD (posIdx ns q) none).isSome).length =
          N := by
        rw [hfilter, c7]
        rw [List.filter_cons] at hS
        by_cases hpres : (st.grid.getD (posIdx ns p) none).isSome = true
        · rw [if_pos hpres] at hS ⊢
          rw [List.length_cons] at hS
          omega
        · rw [if_neg hpres] at hS ⊢
          omega
      have hY2' : ∀ t ∈ st1.threads, ∀ q ∈ rest ++ tail, q.2 ≤ t.y :=
        fun t ht q hq => le_trans (hcross q hq) (c5 t ht)
      have hA' : AssignedInv ns st1.grid st1.threads (rest ++ tail) := by
        intro j s hjs hjlt
        by_cases hj : j = posIdx ns p
        · subst hj
          exact Or.inl (c8 s hjs)
        · rw [c3 j hj] at hjs
          rcases hA j s hjs (by omega) with hleft | ⟨q, hq, hqj⟩
          · exact Or.inl (c6 s.thread s.color hleft)
          · rcases List.mem_cons.mp hq with hq2 | hq2
            · subst hq2; exact absurd hqj.symm hj
            · exact Or.inr ⟨q, hq2, hqj⟩
      obtain ⟨d1, d2, d3, d4, d5, d6, d7⟩ := ih st1 st' hrec hb' hmono'
        (LinkMapOk_congr lm st1.grid st.grid ns nr c2 hlm) (by omega) c4 hY2' hS' hA'
      exact ⟨d1, fun j => (d2 j).trans (c2 j), d3, d4, d5, d6.trans hPC, d7⟩



theorem lmEmpty_ok (grid : List (Option Stitch)) (ns nr : ℕ) :
    LinkMapOk lmEmpty grid ns nr := by
  intro k d2 hk
  exact Option.noConfusion hk

theorem processLink_LinkMapOk (grid : List (Option Stitch)) (ns nr : ℕ)
    (allow : Bool) (m : LinkMap) (l : Link) (m2 : LinkMap)
    (hok : LinkMapOk m grid ns nr)
    (h : processLink grid ns nr allow m l = .ok m2) :
    LinkMapOk m2 grid ns nr := by
  rw [processLink_eq] at h
  cases herr : linkErrSpec grid ns nr allow l with
  | some e => rw [herr] at h; exact Except.noConfusion h
  | none =>
      rw [herr] at h
      obtain ⟨hbs, hbd, _, hlook⟩ := (linkErrSpec_none_iff grid ns nr allow l).mp herr
      have hsn : look_up_link_position grid ns nr l.source ≠ none := by
        intro hc
        exact hbs (Or.inr (Or.inr (Or.inr (Or.inr hc))))
      have hdn : look_up_link_position grid ns nr l.dest ≠ none := by
        intro hc
        exact hbd (Or.inr (Or.inr (Or.inr (Or.inr hc))))
      by_cases hcmp : compare_position_thread_order l.source l.dest = .gt
      · rw [if_pos hcmp] at h
        cases h
        intro k d2 hk
        unfold lmInsert at hk
        by_cases hkk : k = l.source
        · rw [if_pos hkk] at hk
          cases hk
          subst hkk
          exact ⟨hsn, hlook⟩
        · rw [if_neg hkk] at hk
          exact hok k d2 hk
      · rw [if_neg hcmp] at h
        cases h
        intro k d2 hk
        unfold lmInsert at hk
        by_cases hkk : k = l.dest
        · rw [if_pos hkk] at hk
          cases hk
          subst hkk
          exact ⟨hdn, hlook.symm⟩
        · rw [if_neg hkk] at hk
          exact hok k d2 hk

theorem foldlM_links_LinkMapOk (grid : List (Option Stitch)) (ns nr : ℕ)
    (allow : Bool) :
    ∀ (links : List Link) (m lm : LinkMap), LinkMapOk m grid ns nr →
      links.foldlM (processLink grid ns nr allow) m = .ok lm →
      LinkMapOk lm grid ns nr := by
  intro links
  induction links with
  | nil =>
      intro m lm hok h
      replace h : Except.ok m = Except.ok lm := h
      cases h
      exact hok
  | cons l rest ih =>
      intro m lm hok h
      replace h : (processLink grid ns nr allow m l >>= fun m2 =>
          rest.foldlM (processLink grid ns nr allow) m2) = .ok lm := h
      obtain ⟨m2, hm2, hrest⟩ := except_bind_eq_ok h
      exact ih m2 lm (processLink_LinkMapOk grid ns nr allow m l m2 hok hm2) hrest

theorem links_to_hash_LinkMapOk (grid : List (Option Stitch)) (ns nr : ℕ)
    (allow : Bool) (links : List Link) (lm : LinkMap)
    (h : links_to_hash grid ns nr allow links = .ok lm) :
    LinkMapOk lm grid ns nr :=
  foldlM_links_LinkMapOk grid ns nr allow links lmEmpty lm
    (lmEmpty_ok grid ns nr) h

theorem setRow_length (g : List (Option Stitch)) (ns y : ℕ)
    (row : List (Option Stitch)) : (setRow g ns y row).length = g.length := by
  unfold setRow
  generalize List.range ns = L
  induction L generalizing g with
  | nil => rfl
  | cons a t ih =>
      rw [List.foldl_cons, ih]
      exact List.length_set g _ _

theorem foldl_setRow_length (ns : ℕ) (row : List (Option Stitch)) :
    ∀ (L : List ℕ) (g : List (Option Stitch)),
      (L.foldl (fun g2 yy => setRow g2 ns yy row) g).length = g.length := by
  intro L
  induction L with
  | nil => intro g; rfl
  | cons a t ih =>
      intro g
      rw [List.foldl_cons, ih, setRow_length]

theorem option_bind_eq_some {α β : Type} {o : Option α} {f : α → Option β}
    {b : β} (h : o >>= f = some b) : ∃ a, o = some a ∧ f a = some b := by
  cases o with
  | some a => exact ⟨a, rfl, h⟩
  | none => exact Option.noConfusion h



theorem option_foldlM_length {α : Type}
    (F : List (Option Stitch) → α → Option (List (Option Stitch)))
    (hF : ∀ g a gout, F g a = some gout → gout.length = g.length) :
    ∀ (L : List α) (g gout : List (Option Stitch)),
      L.foldlM F g = some gout → gout.length = g.length := by
  intro L
  induction L with
  | nil =>
      intro g gout h
      replace h : some g = some gout := h
      cases h
      rfl
  | cons a t ih =>
      intro g gout h
      replace h : (F g a >>= fun g2 => t.foldlM F g2) = some gout := h
      obtain ⟨g2, hg2, hrest⟩ := option_bind_eq_some h
      rw [ih g2 gout hrest, hF g a g2 hg2]

theorem resample_length (img : ImageData) (d : Dimensions)
    (grid : List (Option Stitch)) (nRows : ℕ)
    (h : resample img d = some (grid, nRows)) :
    grid.length = nRows * d.stitches := by
  simp only [resample] at h
  obtain ⟨g, hg, hpair⟩ := Option.map_eq_some'.mp h
  cases hpair
  refine Eq.trans (option_foldlM_length _ ?_ _ _ _ hg) ?_
  · intro g2 y gout hf
    obtain ⟨row, hrow, heq⟩ := Option.map_eq_some'.mp hf
    rw [← heq, foldl_setRow_length, setRow_length]
  · exact List.length_replicate _ _



theorem initial_AssignedInv (ns nr : ℕ) (grid : List (Option Stitch))
    (hlen : grid.length = nr * ns) :
    AssignedInv ns grid [] (knitOrder ns nr) := by
  intro j s hjs hjlt
  refine Or.inr ?_
  have hns : 0 < ns := by
    by_contra hc
    have hz : ns = 0 := by omega
    subst hz
    omega
  have hjm : j < nr * ns := by omega
  refine ⟨(j % ns, j / ns), knitOrder_mem ns nr _ _ (Nat.mod_lt _ hns) ?_, ?_⟩
  · rw [Nat.div_lt_iff_lt_mul hns]
    calc j < nr * ns := hjm
    _ = nr * ns := rfl
    _ ≤ nr * ns := le_refl _
  · show j % ns + j / ns * ns = j
    rw [Nat.mul_comm]
    exact Nat.mod_add_div j ns

theorem fabricNew_facts (img : ImageData) (d : Dimensions) (fab : Fabric)
    (h : Fabric.new img d = some (.ok fab)) :
    ∃ stf : SweepState,
      fab.stitches = stf.grid
      ∧ fab.threads = sortById stf.threads
      ∧ ThreadInv d.stitches fab.n_rows stf.grid stf.threads
      ∧ sumCounts stf.threads = presentCount stf.grid
      ∧ AssignedInv d.stitches stf.grid stf.threads [] := by
  simp only [Fabric.new] at h
  obtain ⟨⟨grid, nRows⟩, hres, hrun⟩ := Option.map_eq_some'.mp h
  obtain ⟨lm, hlm, hrun2⟩ := except_bind_eq_ok hrun
  obtain ⟨⟨g2, ts⟩, hct, hpure⟩ := except_bind_eq_ok hrun2
  replace hpure : Except.ok (Fabric.mk g2 d.stitches nRows ts) = .ok fab := hpure
  cases hpure
  simp only [calculate_threads] at hct
  obtain ⟨stf, hsweep, hp2⟩ := except_bind_eq_ok hct
  replace hp2 : Except.ok (stf.grid, sortById stf.threads) =
      Except.ok ((g2, ts) : List (Option Stitch) × List Thread) := hp2
  have hg2 : stf.grid = g2 := congrArg Prod.fst (Except.ok.inj hp2)
  have hts : sortById stf.threads = ts := congrArg Prod.snd (Except.ok.inj hp2)
  have hlen : grid.length = nRows * d.stitches := resample_length img d grid nRows hres
  have hTI0 : ThreadInv d.stitches nRows grid [] := by
    refine ⟨?_, ?_, ?_, ?_, List.Pairwise.nil⟩
    · intro t ht; cases ht
    · simp
    · intro t ht; cases ht
    · intro t ht; cases ht
  obtain ⟨d1, d2, d3, d4, d5, d6, d7⟩ :=
    sweepAux_inv d.stitches nRows lm [] (presentCount grid)
      (knitOrder d.stitches nRows) ⟨grid, []⟩ stf hsweep
      (knitOrder_bounds d.stitches nRows)
      (by rw [List.append_nil]; exact knitOrder_rows_mono d.stitches nRows)
      (links_to_hash_LinkMapOk grid d.stitches nRows d.allow_link_gaps d.links lm hlm)
      hlen hTI0
      (fun t ht => absurd ht (List.not_mem_nil t))
      (by
        show sumCounts [] + _ = _
        rw [show sumCounts [] = 0 from rfl, Nat.zero_add]
        exact order_filter_presence d.stitches nRows grid hlen)
      (by rw [List.append_nil]
          exact initial_AssignedInv d.stitches nRows grid hlen)
  exact ⟨stf, hg2.symm, hts.symm, d3, by rw [d4, ← d6], d5⟩





/-- C1: whenever `Fabric::new` returns `Ok(fabric)`, (a) every present
stitch `s` has `s.thread < threads.len()` and the thread at index
`s.thread` has the stitch's color, (b) the stitch counts of the threads
sum to the number of present stitches, and (c) read in order, the thread
`id`s are exactly `0, 1, …, threads.len() − 1` (so `threads` is sorted by
`id` with exactly those ids). -/
theorem claim1_fabric_invariants (img : ImageData) (d : Dimensions) (fab : Fabric)
    (h : Fabric.new img d = some (.ok fab)) :
    (∀ j s, fab.stitches.getD j none = some s →
      s.thread < fab.threads.length ∧
      ∃ t, fab.threads.get? s.thread = some t ∧ t.color = s.color)
    ∧ sumCounts fab.threads = presentCount fab.stitches
    ∧ fab.threads.map (·.id) = List.range fab.threads.length := by
  obtain ⟨stf, hg, hts, hTI, hsum, hA⟩ := fabricNew_facts img d fab h
  obtain ⟨hT1, hT2, hT3, hT4, hT5⟩ := hTI
  have hperm : (sortById stf.threads).Perm stf.threads := sortById_perm _
  have hlenf : fab.threads.length = stf.threads.length := by
    rw [hts]
    exact hperm.length_eq
  have hmapid : fab.threads.map (·.id) = List.range fab.threads.length := by
    apply List.eq_of_perm_of_sorted (r := (· ≤ ·))
    · rw [hts, hperm.length_eq]
      exact (hperm.map (·.id)).trans hT2
    · rw [hts]
      exact List.pairwise_map.mpr (sortById_sorted _)
    · exact (List.pairwise_lt_range _).imp fun h2 => le_of_lt h2
  have hnodup : (fab.threads.map (·.id)).Nodup := by
    rw [hmapid]
    exact List.nodup_range _
  refine ⟨?_, ?_, hmapid⟩
  · intro j s hjs
    have hjlt : j < fab.stitches.length := getD_eq_some_lt _ _ _ hjs
    rw [hg] at hjs hjlt
    rcases hA j s hjs hjlt with ⟨t, htm, htid, htcol⟩ | ⟨q, hq, _⟩
    · have htm' : t ∈ fab.threads := by
        rw [hts]
        exact hperm.mem_iff.mpr htm
      have hidlt : t.id < fab.threads.length := by
        have h2 : t.id ∈ fab.threads.map (·.id) := List.mem_map_of_mem _ htm'
        rw [hmapid] at h2
        exact List.mem_range.mp h2
      refine ⟨by rw [← htid]; exact hidlt, ?_⟩
      have h1 : (fab.threads.map (·.id)).get? t.id = some t.id := by
        rw [hmapid]
        exact List.get?_range hidlt
      rw [List.get?_map] at h1
      cases hu : fab.threads.get? t.id with
      | none => rw [hu] at h1; exact Option.noConfusion h1
      | some u =>
          rw [hu] at h1
          have huid : u.id = t.id := Option.some.inj h1
          have hum : u ∈ fab.threads := List.get?_mem hu
          have hut : u = t := List.inj_on_of_nodup_map hnodup hum htm' huid
          refine ⟨u, by rw [← htid]; exact hu, by rw [hut, htcol]⟩
    · exact absurd hq (List.not_mem_nil q)
  · rw [hts, hg, sumCounts_perm _ _ hperm]
    exact hsum

/-- Closed witness for C1: the one-pixel, one-stitch run. -/
theorem claim1_witness :
    Fabric.new onePixelImage onePixelDims = some (.ok w1fab)
    ∧ ((∀ j s, w1fab.stitches.getD j none = some s →
        s.thread < w1fab.threads.length ∧
        ∃ t, w1fab.threads.get? s.thread = some t ∧ t.color = s.color)
      ∧ sumCounts w1fab.threads = presentCount w1fab.stitches
      ∧ w1fab.threads.map (·.id) = List.range w1fab.threads.length) :=
  ⟨by decide, claim1_fabric_invariants onePixelImage onePixelDims w1fab (by decide)⟩

/-- C10: every thread of a fabric successfully built by `Fabric::new` has
`stitch_count ≥ 1`: a thread is only created for a present stitch and is
immediately assigned it. -/
theorem claim10_thread_counts (img : ImageData) (d : Dimensions) (fab : Fabric)
    (h : Fabric.new img d = some (.ok fab)) :
    ∀ t ∈ fab.threads, 1 ≤ t.stitch_count := by
  obtain ⟨stf, hg, hts, hTI, hsum, hA⟩ := fabricNew_facts img d fab h
  intro t ht
  rw [hts] at ht
  exact hTI.2.2.1 t ((sortById_perm _).mem_iff.mp ht)

/-- Closed witness for C10. -/
theorem claim10_witness :
    Fabric.new onePixelImage onePixelDims = some (.ok w1fab)
    ∧ ∀ t ∈ w1fab.threads, 1 ≤ t.stitch_count :=
  ⟨by decide, claim10_thread_counts onePixelImage onePixelDims w1fab (by decide)⟩



/-- C9: at any point of the `calculate_threads` sweep (state `stf` after
the processed prefix `done` of the knit order, `p` the position about to
be visited), every stored thread has `y ≥ p.2`; hence, `n_rows` being a
`u16` value, the wrapping subtraction `thread.y - y` of
`find_neighboring_thread` equals the exact row gap and never underflows,
and the early-`break` scan agrees with the break-free exact-arithmetic
scan of the whole recency list, so the break skips no thread whose row
gap is within bounds. -/
theorem claim9_sweep_no_underflow (img : ImageData) (d : Dimensions)
    (grid : List (Option Stitch)) (nRows : ℕ) (lm : LinkMap)
    (done restL : List (ℕ × ℕ)) (p : ℕ × ℕ) (stf : SweepState)
    (hres : resample img d = some (grid, nRows))
    (hlm : links_to_hash grid d.stitches nRows d.allow_link_gaps d.links = .ok lm)
    (horder : knitOrder d.stitches nRows = done ++ p :: restL)
    (hsweep : sweepAux d.stitches nRows lm ⟨grid, []⟩ done = .ok stf)
    (hnr : nRows ≤ 65536) :
    (∀ t ∈ stf.threads, p.2 ≤ t.y)
    ∧ (∀ t ∈ stf.threads, wsub t.y p.2 = t.y - p.2)
    ∧ ∀ c, find_neighboring_thread stf.threads c p.1 p.2
        = findNeighborFull stf.threads c p.1 p.2 := by
  have hlen := resample_length img d grid nRows hres
  have hTI0 : ThreadInv d.stitches nRows grid [] := by
    refine ⟨?_, ?_, ?_, ?_, List.Pairwise.nil⟩
    · intro t ht; cases ht
    · simp
    · intro t ht; cases ht
    · intro t ht; cases ht
  obtain ⟨d1, d2, d3, d4, d5, d6, d7⟩ :=
    sweepAux_inv d.stitches nRows lm (p :: restL)
      ((done.filter fun q => (grid.getD (posIdx d.stitches q) none).isSome).length)
      done ⟨grid, []⟩ stf hsweep
      (fun q hq => knitOrder_bounds d.stitches nRows q
        (by rw [horder]; exact List.mem_append_left _ hq))
      (by rw [← horder]; exact knitOrder_rows_mono d.stitches nRows)
      (links_to_hash_LinkMapOk grid d.stitches nRows d.allow_link_gaps d.links lm hlm)
      hlen hTI0
      (fun t ht => absurd ht (List.not_mem_nil t))
      (by rw [show sumCounts [] = 0 from rfl, Nat.zero_add])
      (by rw [← horder]; exact initial_AssignedInv d.stitches nRows grid hlen)
  have hylow : ∀ t ∈ stf.threads, p.2 ≤ t.y :=
    fun t ht => d7 t ht p (List.mem_cons_self p restL)
  have hyhigh : ∀ t ∈ stf.threads, t.y < nRows := fun t ht => d3.2.2.2.1 t ht
  refine ⟨hylow, ?_, ?_⟩
  · intro t ht
    exact wsub_eq t.y p.2 (hylow t ht) (by have := hyhigh t ht; omega)
  · intro c
    exact fnb_eq_full stf.threads c p.1 p.2
      (fun t ht => ⟨hylow t ht, by have := hyhigh t ht; omega⟩)
      d3.2.2.2.2

/-- Closed witness for C9: the one-pixel run before its single position. -/
theorem claim9_witness :
    knitOrder 1 1 = [] ++ (0, 0) :: []
    ∧ ((∀ t ∈ (SweepState.mk w9grid []).threads, (0, 0).2 ≤ t.y)
      ∧ (∀ t ∈ (SweepState.mk w9grid []).threads, wsub t.y (0, 0).2 = t.y - (0, 0).2)
      ∧ ∀ c, find_neighboring_thread (SweepState.mk w9grid []).threads c (0, 0).1 (0, 0).2
          = findNeighborFull (SweepState.mk w9grid []).threads c (0, 0).1 (0, 0).2) :=
  ⟨by decide,
   claim9_sweep_no_underflow onePixelImage onePixelDims w9grid 1 lmEmpty
     [] [] (0, 0) ⟨w9grid, []⟩ (by decide) rfl (by decide) rfl (by decide)⟩

end Stitchify
